import Mathlib

/-!
Shallow embedding of `ai_wargame_skeleton.py` (a two-player grid wargame with a
minimax search engine) and verification of the specification's claims about it.

Modelling conventions:
* Python `int` is `Int`; unit health is an `Int` clamped by `Unit.mod_health`
  exactly as in the source.
* The `dim × dim` board (a Python list of lists of `Unit | None`) is modelled as
  a total map `Coord → Option Unit`; `Game.get` and `Game.set` guard on
  `is_valid_coord` exactly as the source does, so cells outside the board are
  never observable.
* Fallible code paths (a Python `AttributeError` on `None`) are modelled with
  `Option`: `Game.determine_action` returns `none` where the source raises.
* `Game.clone` deep-copies the board and shares options; with a persistent board
  the clone is the game itself, so no separate definition is needed.
* The `Stats` record (wall-clock seconds, per-depth eval counters) is never read
  by any decision-making code in the source and is omitted.
-/

namespace AIWargame

/-- `MAX_HEURISTIC_SCORE` from the source. -/
def MAX_HEURISTIC_SCORE : Int := 2000000000

/-- `MIN_HEURISTIC_SCORE` from the source. -/
def MIN_HEURISTIC_SCORE : Int := -2000000000

/-- `UnitType`: every unit type. -/
inductive UnitType where
  | AI
  | Tech
  | Virus
  | Program
  | Firewall
deriving DecidableEq, Repr

/-- The numeric value of the Python enum constant. -/
def UnitType.value : UnitType → Nat
  | .AI => 0
  | .Tech => 1
  | .Virus => 2
  | .Program => 3
  | .Firewall => 4

/-- `ActionType`. -/
inductive ActionType where
  | MOVE
  | ATTACK
  | REPAIR
  | SUICIDE
deriving DecidableEq, Repr

/-- `Player`: the 2 players. -/
inductive Player where
  | Attacker
  | Defender
deriving DecidableEq, Repr

/-- `Player.next`: the next (other) player. -/
def Player.next : Player → Player
  | .Attacker => .Defender
  | .Defender => .Attacker

/-- `GameType`. -/
inductive GameType where
  | AttackerVsDefender
  | AttackerVsComp
  | CompVsDefender
  | CompVsComp
deriving DecidableEq, Repr

/-- `Unit`: a unit on the board. -/
structure Unit where
  player : Player := .Attacker
  type : UnitType := .Program
  health : Int := 9
deriving DecidableEq, Repr

/-- `Unit.damage_table`: class-level damage table (rows = acting type in enum
order AI, Tech, Virus, Program, Firewall; columns = target type). -/
def damage_table : List (List Int) :=
  [[3, 3, 3, 3, 1],
   [1, 1, 6, 1, 1],
   [9, 6, 1, 6, 1],
   [3, 3, 3, 3, 1],
   [1, 1, 1, 1, 1]]

/-- `Unit.repair_table`: class-level repair table (same indexing). -/
def repair_table : List (List Int) :=
  [[0, 1, 1, 0, 0],
   [3, 0, 0, 3, 3],
   [0, 0, 0, 0, 0],
   [0, 0, 0, 0, 0],
   [0, 0, 0, 0, 0]]

/-- The Python `table[a.value][b.value]` double indexing (always in range for
the two 5×5 tables, so the defaults are never hit). -/
def tableLookup (t : List (List Int)) (a b : UnitType) : Int :=
  (t.getD a.value []).getD b.value 0

/-- `Unit.is_alive`. -/
def Unit.is_alive (u : Unit) : Bool := u.health > 0

/-- `Unit.mod_health`: modify this unit's health by a delta amount, clamping to
`[0, 9]`. -/
def Unit.mod_health (u : Unit) (health_delta : Int) : Unit :=
  if u.health + health_delta < 0 then { u with health := 0 }
  else if u.health + health_delta > 9 then { u with health := 9 }
  else { u with health := u.health + health_delta }

/-- `Unit.damage_amount`: how much this unit can damage another unit. -/
def Unit.damage_amount (u target : Unit) : Int :=
  let amount := tableLookup damage_table u.type target.type
  if target.health - amount < 0 then target.health else amount

/-- `Unit.repair_amount`: how much this unit can repair another unit. -/
def Unit.repair_amount (u target : Unit) : Int :=
  let amount := tableLookup repair_table u.type target.type
  if target.health + amount > 9 then 9 - target.health else amount

/-- `Coord`: a game cell coordinate (row, col). -/
structure Coord where
  row : Int := 0
  col : Int := 0
deriving DecidableEq, Repr

/-- The list of integers `a, a+1, ..., b-1` (Python `range(a, b)`). -/
def intRange (a b : Int) : List Int :=
  (List.range (b - a).toNat).map (fun (i : Nat) => a + (i : Int))

/-- `Coord.iter_range`: Coords inside a rectangle centered on this Coord
(rows `row-dist .. row+dist`, cols `col-dist .. col+dist`, row-major). -/
def Coord.iter_range (c : Coord) (dist : Int) : List Coord :=
  (intRange (c.row - dist) (c.row + 1 + dist)).flatMap
    (fun r => (intRange (c.col - dist) (c.col + 1 + dist)).map (fun cc => ⟨r, cc⟩))

/-- `Coord.iter_adjacent`: the four orthogonal neighbours, in source order. -/
def Coord.iter_adjacent (c : Coord) : List Coord :=
  [⟨c.row - 1, c.col⟩, ⟨c.row, c.col - 1⟩, ⟨c.row + 1, c.col⟩, ⟨c.row, c.col + 1⟩]

/-- `CoordPair`: a game move or rectangular area via two Coords. -/
structure CoordPair where
  src : Coord := {}
  dst : Coord := {}
deriving DecidableEq, Repr

/-- `CoordPair.iter_rectangle`: cells of the rectangular area, row-major. -/
def CoordPair.iter_rectangle (cp : CoordPair) : List Coord :=
  (intRange cp.src.row (cp.dst.row + 1)).flatMap
    (fun r => (intRange cp.src.col (cp.dst.col + 1)).map (fun c => ⟨r, c⟩))

/-- `CoordPair.from_quad`. -/
def CoordPair.from_quad (row0 col0 row1 col1 : Int) : CoordPair :=
  ⟨⟨row0, col0⟩, ⟨row1, col1⟩⟩

/-- `CoordPair.from_dim`: the rectangle `(0,0) .. (dim-1, dim-1)`. -/
def CoordPair.from_dim (dim : Int) : CoordPair :=
  ⟨⟨0, 0⟩, ⟨dim - 1, dim - 1⟩⟩

/-- `Options`: the game options.  `max_time` is a float in the source; only its
presence (`None` or not) is ever consulted by the code paths embedded here, and
it is modelled as an `Option Rat`.  The class-level `file` name (a log file
path) is external I/O and is omitted. -/
structure Options where
  dim : Int := 5
  max_depth : Option Int := some 4
  min_depth : Option Int := some 2
  max_time : Option Rat := some 5
  game_type : GameType := .AttackerVsDefender
  alpha_beta : Bool := false
  max_turns : Option Int := some 100
  randomize_moves : Bool := true
  broker : Option String := none
deriving DecidableEq, Repr

/-- `Game`: the game state.  The board is the total map described in the file
header; `attacker_has_ai` / `defender_has_ai` are the source's
`_attacker_has_ai` / `_defender_has_ai` flags. -/
structure Game where
  board : Coord → Option Unit
  next_player : Player := .Attacker
  turns_played : Int := 0
  options : Options := {}
  attacker_has_ai : Bool := true
  defender_has_ai : Bool := true

/-- `Game.is_valid_coord`: is the Coord inside the board? -/
def Game.is_valid_coord (g : Game) (coord : Coord) : Bool :=
  if coord.row < 0 ∨ coord.row ≥ g.options.dim ∨ coord.col < 0 ∨ coord.col ≥ g.options.dim
  then false else true

/-- `Game.get`: contents of a board cell (None when out of bounds). -/
def Game.get (g : Game) (coord : Coord) : Option Unit :=
  if g.is_valid_coord coord then g.board coord else none

/-- `Game.set`: set contents of a board cell (no-op when out of bounds). -/
def Game.set (g : Game) (coord : Coord) (unit : Option Unit) : Game :=
  if g.is_valid_coord coord then
    { g with board := fun c => if c = coord then unit else g.board c }
  else g

/-- `Game.is_empty`. -/
def Game.is_empty (g : Game) (coord : Coord) : Bool := (g.board coord).isNone

/-- `Game.remove_dead`: remove the unit at the Coord if dead, clearing the
corresponding AI-alive flag when it was an AI. -/
def Game.remove_dead (g : Game) (coord : Coord) : Game :=
  match g.get coord with
  | some unit =>
    if ¬ unit.is_alive then
      let g' := g.set coord none
      if unit.type = UnitType.AI then
        if unit.player = Player.Attacker then { g' with attacker_has_ai := false }
        else { g' with defender_has_ai := false }
      else g'
    else g
  | none => g

/-- `Game.mod_health`: modify health of the unit at a Coord and sweep it for
death. -/
def Game.mod_health (g : Game) (coord : Coord) (health_delta : Int) : Game :=
  match g.get coord with
  | some target => (g.set coord (some (target.mod_health health_delta))).remove_dead coord
  | none => g

/-- `Game.determine_action`: classify a coordinate pair.  The source reads
`src_unit.player` without a `None` check, so it raises when the source cell is
empty and the destination holds a unit; that failure is the `none` result. -/
def Game.determine_action (g : Game) (coords : CoordPair) : Option ActionType :=
  let src_unit := g.get coords.src
  let dst_unit := g.get coords.dst
  if coords.src = coords.dst then some ActionType.SUICIDE
  else
    match dst_unit with
    | none => some ActionType.MOVE
    | some du =>
      match src_unit with
      | none => none
      | some su =>
        if su.player = du.player then some ActionType.REPAIR
        else some ActionType.ATTACK

/-- `Game.unit_movement_restriction`: direction-of-advance and engagement-lock
rules for a MOVE.  `is_valid_move` only calls this once the source cell is
known to hold a unit (on an empty source the Python would raise), so the
`none` branch is unreachable from that call site. -/
def Game.unit_movement_restriction (g : Game) (coords : CoordPair) : Bool :=
  match g.get coords.src with
  | none => false
  | some src_unit =>
    let row_dst := coords.dst.row - coords.src.row
    let col_dst := coords.dst.col - coords.src.col
    if src_unit.type ∈ [UnitType.AI, UnitType.Firewall, UnitType.Program] then
      if src_unit.player = Player.Attacker ∧ (row_dst > 0 ∨ col_dst > 0) then false
      else if src_unit.player ≠ Player.Attacker ∧ (row_dst < 0 ∨ col_dst < 0) then false
      else if (coords.src.iter_adjacent).any (fun coord =>
          match g.get coord with
          | some unit =>
            decide (src_unit.type ∈ [UnitType.AI, UnitType.Firewall, UnitType.Program]) &&
            decide (src_unit.player ≠ unit.player)
          | none => false) then false
      else true
    else true

/-- `Game.is_valid_move`: validate a move expressed as a CoordPair. -/
def Game.is_valid_move (g : Game) (coords : CoordPair) : Bool :=
  if ¬ g.is_valid_coord coords.src ∨ ¬ g.is_valid_coord coords.dst then false
  else
    match g.get coords.src with
    | none => false
    | some src_unit =>
      if src_unit.player ≠ g.next_player then false
      else if coords.src ≠ coords.dst then
        if coords.dst ∈ coords.src.iter_adjacent then
          match g.get coords.dst with
          | some dst_unit =>
            if g.determine_action coords = some ActionType.REPAIR then
              let repair := tableLookup repair_table src_unit.type dst_unit.type
              if repair = 0 then false
              else if dst_unit.health = 9 then false
              else true
            else true
          | none => g.unit_movement_restriction coords
        else false
      else true

/-- `Game.perform_movement` (source also returns a description string, which is
pure logging). -/
def Game.perform_movement (g : Game) (coords : CoordPair) : Game :=
  (g.set coords.dst (g.get coords.src)).set coords.src none

/-- `Game.perform_attack`: the source computes `src_damage` (applied to the
source cell) from row `src_unit.type` and `dst_damage` (applied to the
destination cell) from row `dst_unit.type`, both before either is applied. -/
def Game.perform_attack (g : Game) (coords : CoordPair) (src_unit dst_unit : Unit) : Game :=
  let src_damage := tableLookup damage_table src_unit.type dst_unit.type * (-1)
  let dst_damage := tableLookup damage_table dst_unit.type src_unit.type * (-1)
  (g.mod_health coords.src src_damage).mod_health coords.dst dst_damage

/-- `Game.perform_repair`. -/
def Game.perform_repair (g : Game) (coords : CoordPair) (src_unit dst_unit : Unit) : Game :=
  let repair := tableLookup repair_table src_unit.type dst_unit.type
  g.mod_health coords.dst repair

/-- One step of the `perform_suicide` loop body: splash 2 damage on an occupied
cell and add 2 to the reported total. -/
def suicideStep (acc : Game × Int) (coord : Coord) : Game × Int :=
  match acc.1.get coord with
  | some _ => (acc.1.mod_health coord (-2), acc.2 + 2)
  | none => acc

/-- `Game.perform_suicide`: drive the acting unit's health to 0, then splash
−2 on every occupied cell of the 1-radius box around it.  The `Int` component
is the `total_damage` the source reports in its description string. -/
def Game.perform_suicide (g : Game) (coords : CoordPair) : Game × Int :=
  let g1 := g.mod_health coords.src (-9)
  (coords.src.iter_range 1).foldl suicideStep (g1, 0)

/-- `Game.perform_move`: validate and perform a move.  The boolean is the
source's success flag (the description strings are pure logging and omitted).
The inner wildcard branches are unreachable: a valid non-SUICIDE move with an
occupied destination always has units on both cells. -/
def Game.perform_move (g : Game) (coords : CoordPair) : Game × Bool :=
  if g.is_valid_move coords then
    match g.determine_action coords with
    | some ActionType.MOVE => (g.perform_movement coords, true)
    | some ActionType.ATTACK =>
      match g.get coords.src, g.get coords.dst with
      | some src_unit, some dst_unit => (g.perform_attack coords src_unit dst_unit, true)
      | _, _ => (g, false)
    | some ActionType.REPAIR =>
      match g.get coords.src, g.get coords.dst with
      | some src_unit, some dst_unit => (g.perform_repair coords src_unit dst_unit, true)
      | _, _ => (g, false)
    | some ActionType.SUICIDE => ((g.perform_suicide coords).1, true)
    | none => (g, false)
  else (g, false)

/-- `Game.next_turn`. -/
def Game.next_turn (g : Game) : Game :=
  { g with next_player := g.next_player.next, turns_played := g.turns_played + 1 }

/-- `Game.has_winner`: turn-limit check first (Defender wins unconditionally),
then the AI-alive flags. -/
def Game.has_winner (g : Game) : Option Player :=
  if (match g.options.max_turns with
      | some m => decide (g.turns_played ≥ m)
      | none => false) then some Player.Defender
  else if g.attacker_has_ai then
    if g.defender_has_ai then none else some Player.Attacker
  else some Player.Defender

/-- `Game.is_finished`. -/
def Game.is_finished (g : Game) : Bool := (g.has_winner).isSome

/-- `Game.player_units`: all units belonging to a player, in board order. -/
def Game.player_units (g : Game) (player : Player) : List (Coord × Unit) :=
  (CoordPair.from_dim g.options.dim).iter_rectangle.filterMap
    (fun coord =>
      match g.get coord with
      | some unit => if unit.player = player then some (coord, unit) else none
      | none => none)

/-- `Game.move_candidates`: for each unit of the next player, the valid
adjacent moves followed by the (unconditional) self-target pair. -/
def Game.move_candidates (g : Game) : List CoordPair :=
  (g.player_units g.next_player).flatMap
    (fun su =>
      ((su.1.iter_adjacent).filter (fun dst => g.is_valid_move ⟨su.1, dst⟩)).map
        (fun dst => (⟨su.1, dst⟩ : CoordPair))
      ++ [⟨su.1, su.1⟩])

/-- The type of the leaf evaluator `calculate_heuristic3(move, action, prev_state)`
called on a node game (`self` is consulted for `next_player` in its SUICIDE
branch).  The source's heuristic computes a Euclidean distance with the
floating-point `math.sqrt` (through a module reference the file never imports),
so it does not translate to the embedding; minimax is therefore embedded
parametrically in the leaf evaluator, which also makes the search theorems hold
for every evaluator. -/
abbrev HFun := Game → Option CoordPair → Option ActionType → Option Game → Int

/-- The child state explored by `minimax` for a candidate move: clone the game,
perform the move, advance the turn. -/
def Game.search_child (g : Game) (move : CoordPair) : Game :=
  ((g.perform_move move).1).next_turn

/-- The maximizing sibling loop of `Game.minimax`: running `max_eval`,
`best_move`, and `alpha`; when `ab` (the constant `options.alpha_beta` flag,
shared by reference with every clone and never written during search) is set,
`alpha` is raised and the loop breaks as soon as `beta ≤ alpha`.  `child m a`
is the score of the recursive call on move `m` with window `(a, beta)`. -/
def maxLoop (ab : Bool) (beta : Int) (child : CoordPair → Int → Int) :
    List CoordPair → Int → Option CoordPair → Int → Int × Option CoordPair
  | [], max_eval, best_move, _ => (max_eval, best_move)
  | m :: ms, max_eval, best_move, alpha =>
    let eval := child m alpha
    let max_eval' := if eval > max_eval then eval else max_eval
    let best_move' := if eval > max_eval then some m else best_move
    if ab then
      let alpha' := max alpha eval
      if beta ≤ alpha' then (max_eval', best_move')
      else maxLoop ab beta child ms max_eval' best_move' alpha'
    else maxLoop ab beta child ms max_eval' best_move' alpha

/-- The minimizing sibling loop of `Game.minimax` (dual of `maxLoop`). -/
def minLoop (ab : Bool) (alpha : Int) (child : CoordPair → Int → Int) :
    List CoordPair → Int → Option CoordPair → Int → Int × Option CoordPair
  | [], min_eval, best_move, _ => (min_eval, best_move)
  | m :: ms, min_eval, best_move, beta =>
    let eval := child m beta
    let min_eval' := if eval < min_eval then eval else min_eval
    let best_move' := if eval < min_eval then some m else best_move
    if ab then
      let beta' := min beta eval
      if beta' ≤ alpha then (min_eval', best_move')
      else minLoop ab alpha child ms min_eval' best_move' beta'
    else minLoop ab alpha child ms min_eval' best_move' beta

/-- `Game.minimax` as executed with `options.max_time = None` (the only case
the spec's search claims cover; with a time limit the source consults a wall
clock before each sibling, which is outside the embedding).  Returns
`(score, best_move, avg_depth)` exactly as the source does: leaves evaluate the
transition `(move, action, prev_state)` that produced them, interior nodes run
the sibling loop over `move_candidates`, recursing on `search_child` at
`depth - 1` with the maximizing role flipped. -/
def Game.minimax (H : HFun) (ab : Bool) :
    Nat → Bool → Int → Int → Game → Option CoordPair → Option ActionType → Option Game →
    Int × Option CoordPair × Nat
  | 0, _, _, _, g, move, action, prev_state => (H g move action prev_state, none, 0)
  | depth + 1, maximizing_player, alpha, beta, g, move, action, prev_state =>
    if g.is_finished then (H g move action prev_state, none, 0)
    else if maximizing_player then
      let possible_moves := g.move_candidates
      let r := maxLoop ab beta
        (fun m a => (Game.minimax H ab depth false a beta (g.search_child m)
          (some m) (g.determine_action m) (some g)).1)
        possible_moves MIN_HEURISTIC_SCORE none alpha
      (r.1, r.2, depth + 1)
    else
      let possible_moves := g.move_candidates
      let r := minLoop ab alpha
        (fun m b => (Game.minimax H ab depth true alpha b (g.search_child m)
          (some m) (g.determine_action m) (some g)).1)
        possible_moves MAX_HEURISTIC_SCORE none beta
      (r.1, r.2, 0)

/-- `Game.suggest_move`: root minimax at depth 2 from a clone of the current
state, maximizing exactly when the Attacker is to move; returns the best move
(the printed statistics are pure logging). -/
def Game.suggest_move (H : HFun) (ab : Bool) (g : Game) : Option CoordPair :=
  if g.next_player = Player.Attacker then
    (Game.minimax H ab 2 true MIN_HEURISTIC_SCORE MAX_HEURISTIC_SCORE g none none none).2.1
  else
    (Game.minimax H ab 2 false MIN_HEURISTIC_SCORE MAX_HEURISTIC_SCORE g none none none).2.1

/-- `l.foldl max` seen through `f` — the value computed by the sibling loop when
pruning is disabled. -/
def foldMax (f : CoordPair → Int) (l : List CoordPair) (e : Int) : Int :=
  l.foldl (fun acc m => max acc (f m)) e

/-- Dual of `foldMax`. -/
def foldMin (f : CoordPair → Int) (l : List CoordPair) (e : Int) : Int :=
  l.foldl (fun acc m => min acc (f m)) e

/-! ### Coordinate text parsing

`Coord.from_string` operates on Python strings; it is embedded on `List Char`.
`str.strip()` removes leading/trailing ASCII whitespace and the loop over
`" ,.:;-_"` removes every occurrence of those separator characters; the
remainder must have length exactly 2.  `str.find` returns the index or `-1`. -/

/-- The whitespace characters removed by Python's `str.strip()` (ASCII). -/
def isPyWhitespace (c : Char) : Bool :=
  c = ' ' ∨ c = '\t' ∨ c = '\n' ∨ c = '\r' ∨ c = '\x0b' ∨ c = '\x0c'

/-- The separator characters `" ,.:;-_"` removed by the parsing loop. -/
def pySeparators : List Char := [' ', ',', '.', ':', ';', '-', '_']

/-- `strip` plus separator removal, as applied by both `from_string` parsers. -/
def cleanCoordString (s : List Char) : List Char :=
  (((s.dropWhile isPyWhitespace).reverse.dropWhile isPyWhitespace).reverse).filter
    (fun c => ¬ pySeparators.contains c)

/-- The row alphabet `"ABCDEFGHIJKLMNOPQRSTUVWXYZ"`. -/
def rowAlphabet : List Char := "ABCDEFGHIJKLMNOPQRSTUVWXYZ".toList

/-- The column alphabet `"0123456789abcdef"`. -/
def colAlphabet : List Char := "0123456789abcdef".toList

/-- Python `str.find`: first index of the character, or `-1`. -/
def strFind (s : List Char) (c : Char) : Int :=
  match s.indexOf? c with
  | some i => (i : Int)
  | none => -1

/-- `Coord.from_string`: strip/clean the input; if exactly 2 characters remain,
look the first up (uppercased) in the row alphabet and the second (lowercased)
in the column alphabet — `find` yields `-1` for characters not present — else
return `None`. -/
def Coord.from_string (s : List Char) : Option Coord :=
  let t := cleanCoordString s
  if t.length = 2 then
    some ⟨strFind rowAlphabet (t.getD 0 ' ').toUpper, strFind colAlphabet (t.getD 1 ' ').toLower⟩
  else none

/-- Board well-formedness used by several theorems: every unit on the board has
health at most 9 (the source maintains this: units are created at 9 and
`mod_health` clamps to `[0, 9]`). -/
def Game.healthOK (g : Game) : Prop :=
  ∀ c u, g.get c = some u → u.health ≤ 9

/-- The effect of one −2 splash hit on an optional cell content: a unit at
health ≤ 2 dies and is removed, any other unit loses 2 health. -/
def splash2 : Option Unit → Option Unit
  | some w => if w.health ≤ 2 then none else some (w.mod_health (-2))
  | none => none

/-! ### Concrete states used by counterexamples and witnesses -/

/-- The constant-zero leaf evaluator, a sentinel-bounded instance of `HFun`. -/
def H0 : HFun := fun _ _ _ _ => 0

/-- 2×2 board: Defender AI (health 9) at (0,0), Attacker Virus (health 9) at
(0,1), Attacker to move. -/
def gVirusAI : Game :=
  { board := fun c =>
      if c = ⟨0, 0⟩ then some ⟨Player.Defender, UnitType.AI, 9⟩
      else if c = ⟨0, 1⟩ then some ⟨Player.Attacker, UnitType.Virus, 9⟩
      else none,
    next_player := Player.Attacker,
    options := { dim := 2, max_time := none } }

/-- 2×2 board: Defender Tech (health 9) at (0,0), Attacker Virus (health 9) at
(0,1), Attacker to move (the spec's concrete scenario A). -/
def gVirusTech : Game :=
  { board := fun c =>
      if c = ⟨0, 0⟩ then some ⟨Player.Defender, UnitType.Tech, 9⟩
      else if c = ⟨0, 1⟩ then some ⟨Player.Attacker, UnitType.Virus, 9⟩
      else none,
    next_player := Player.Attacker,
    options := { dim := 2, max_time := none } }

/-- The move `(0,1) → (0,0)` used by the attack scenarios. -/
def attackMove : CoordPair := ⟨⟨0, 1⟩, ⟨0, 0⟩⟩

/-- 3×3 board: Attacker Program at (1,1) with an enemy Defender Firewall
orthogonally adjacent at (1,0). -/
def gLocked : Game :=
  { board := fun c =>
      if c = ⟨1, 1⟩ then some ⟨Player.Attacker, UnitType.Program, 9⟩
      else if c = ⟨1, 0⟩ then some ⟨Player.Defender, UnitType.Firewall, 9⟩
      else none,
    next_player := Player.Attacker,
    options := { dim := 3, max_time := none } }

/-- 3×3 board: a lone Attacker Program at (1,1). -/
def gLoneProgram : Game :=
  { board := fun c => if c = ⟨1, 1⟩ then some ⟨Player.Attacker, UnitType.Program, 9⟩ else none,
    next_player := Player.Attacker,
    options := { dim := 3, max_time := none } }

/-- 3×3 board: a lone Attacker Virus at (1,1). -/
def gLoneVirus : Game :=
  { board := fun c => if c = ⟨1, 1⟩ then some ⟨Player.Attacker, UnitType.Virus, 9⟩ else none,
    next_player := Player.Attacker,
    options := { dim := 3, max_time := none } }

/-- 1×1 board: a lone Attacker AI at (0,0) (its only candidate move is the
self-target). -/
def gSolo : Game :=
  { board := fun c => if c = ⟨0, 0⟩ then some ⟨Player.Attacker, UnitType.AI, 9⟩ else none,
    next_player := Player.Attacker,
    options := { dim := 1, max_time := none } }

/-- A state at the configured turn limit with both AI units still alive. -/
def gTurnLimit : Game :=
  { board := fun c =>
      if c = ⟨0, 0⟩ then some ⟨Player.Defender, UnitType.AI, 9⟩
      else if c = ⟨1, 1⟩ then some ⟨Player.Attacker, UnitType.AI, 9⟩
      else none,
    next_player := Player.Attacker,
    turns_played := 100,
    options := { dim := 2, max_time := none, max_turns := some 100 },
    attacker_has_ai := true,
    defender_has_ai := true }

/-! ### Basic board lemmas -/

theorem Game.get_some_valid {g : Game} {c : Coord} {u : Unit}
    (h : g.get c = some u) : g.is_valid_coord c = true := by
  unfold Game.get at h
  by_cases hv : g.is_valid_coord c
  · exact hv
  · simp [hv] at h

@[simp] theorem Game.options_set (g : Game) (c : Coord) (u : Option Unit) :
    (g.set c u).options = g.options := by
  unfold Game.set; split <;> rfl

@[simp] theorem Game.next_player_set (g : Game) (c : Coord) (u : Option Unit) :
    (g.set c u).next_player = g.next_player := by
  unfold Game.set; split <;> rfl

@[simp] theorem Game.is_valid_coord_set (g : Game) (c : Coord) (u : Option Unit) (c' : Coord) :
    (g.set c u).is_valid_coord c' = g.is_valid_coord c' := by
  unfold Game.is_valid_coord
  rw [Game.options_set]

@[simp] theorem Game.is_valid_coord_withBoard (g : Game) (b : Coord → Option Unit) (c : Coord) :
    ({ g with board := b } : Game).is_valid_coord c = g.is_valid_coord c := rfl

theorem Game.get_set_self {g : Game} {c : Coord} (u : Option Unit)
    (hv : g.is_valid_coord c = true) : (g.set c u).get c = u := by
  unfold Game.set
  rw [if_pos hv]
  unfold Game.get
  simp [hv]

theorem Game.get_set_ne {g : Game} {c c' : Coord} (u : Option Unit)
    (h : c' ≠ c) : (g.set c u).get c' = g.get c' := by
  unfold Game.get Game.set
  by_cases hv : g.is_valid_coord c <;> simp [hv, h]

theorem Game.get_flagA (g : Game) (b : Bool) (c : Coord) :
    ({ g with attacker_has_ai := b } : Game).get c = g.get c := rfl

theorem Game.get_flagD (g : Game) (b : Bool) (c : Coord) :
    ({ g with defender_has_ai := b } : Game).get c = g.get c := rfl

theorem Game.get_remove_dead_ne {g : Game} {c c' : Coord}
    (h : c' ≠ c) : (g.remove_dead c).get c' = g.get c' := by
  unfold Game.remove_dead
  cases hg : g.get c with
  | none => rfl
  | some u =>
    have hs : (g.set c none).get c' = g.get c' := Game.get_set_ne _ h
    by_cases ha : u.is_alive
    · simp [ha]
    · simp only [Bool.not_eq_true] at ha
      simp only [ha, Bool.false_eq_true, not_false_iff, if_true]
      split
      · split
        · exact hs
        · exact hs
      · exact hs

theorem Game.get_mod_health_ne {g : Game} {c c' : Coord} (delta : Int)
    (h : c' ≠ c) : (g.mod_health c delta).get c' = g.get c' := by
  unfold Game.mod_health
  cases hg : g.get c with
  | none => rfl
  | some u => rw [Game.get_remove_dead_ne h, Game.get_set_ne _ h]

theorem Game.mod_health_none {g : Game} {c : Coord} (delta : Int)
    (h : g.get c = none) : g.mod_health c delta = g := by
  unfold Game.mod_health
  rw [h]

/-- After the clamp of `Unit.mod_health`, the unit is dead exactly when the
unclamped sum is non-positive. -/
theorem Unit.mod_health_alive (u : Unit) (delta : Int) :
    (u.mod_health delta).is_alive = decide (0 < u.health + delta) := by
  unfold Unit.mod_health Unit.is_alive
  split
  · simp
    omega
  · split <;> simp
    all_goals omega

theorem Game.get_mod_health_eq_match {g : Game} {c : Coord} {u : Unit} (delta : Int)
    (h : g.get c = some u) :
    g.mod_health c delta = (g.set c (some (u.mod_health delta))).remove_dead c := by
  unfold Game.mod_health
  rw [h]

theorem Game.get_mod_health_self {g : Game} {c : Coord} {u : Unit} (delta : Int)
    (h : g.get c = some u) :
    (g.mod_health c delta).get c =
      if u.health + delta ≤ 0 then none else some (u.mod_health delta) := by
  have hv : g.is_valid_coord c = true := Game.get_some_valid h
  rw [Game.get_mod_health_eq_match delta h]
  unfold Game.remove_dead
  rw [Game.get_set_self _ hv]
  dsimp only
  rw [Unit.mod_health_alive]
  by_cases hd : u.health + delta ≤ 0
  · rw [if_pos hd]
    have hdec : (decide ((0 : Int) < u.health + delta)) = false := by
      simp only [decide_eq_false_iff_not]
      omega
    rw [hdec]
    rw [if_pos (by simp : ¬(false = true))]
    have hnone : ((g.set c (some (u.mod_health delta))).set c none).get c = none := by
      refine Game.get_set_self none ?_
      rw [Game.is_valid_coord_set]; exact hv
    split
    · split
      · exact hnone
      · exact hnone
    · exact hnone
  · have h0 : (0 : Int) < u.health + delta := by omega
    rw [if_neg hd]
    simp [h0, Game.get_set_self _ hv]

/-! ### Coordinate range lemmas -/

theorem mem_intRange {a b x : Int} : x ∈ intRange a b ↔ a ≤ x ∧ x < b := by
  unfold intRange
  simp only [List.mem_map, List.mem_range]
  constructor
  · rintro ⟨i, hi, rfl⟩
    omega
  · intro h
    exact ⟨(x - a).toNat, by omega, by omega⟩

theorem mem_iter_rectangle {cp : CoordPair} {c : Coord} :
    c ∈ cp.iter_rectangle ↔
      cp.src.row ≤ c.row ∧ c.row ≤ cp.dst.row ∧ cp.src.col ≤ c.col ∧ c.col ≤ cp.dst.col := by
  unfold CoordPair.iter_rectangle
  simp only [List.mem_flatMap, List.mem_map, mem_intRange]
  constructor
  · rintro ⟨r, hr, cc, hcc, rfl⟩
    simp only
    omega
  · intro h
    exact ⟨c.row, by omega, c.col, by omega, rfl⟩

theorem mem_iter_adjacent {c d : Coord} :
    d ∈ c.iter_adjacent ↔
      d = ⟨c.row - 1, c.col⟩ ∨ d = ⟨c.row, c.col - 1⟩ ∨
      d = ⟨c.row + 1, c.col⟩ ∨ d = ⟨c.row, c.col + 1⟩ := by
  simp [Coord.iter_adjacent]

theorem iter_range_one (c : Coord) :
    c.iter_range 1 =
      [⟨c.row - 1, c.col - 1⟩, ⟨c.row - 1, c.col⟩, ⟨c.row - 1, c.col + 1⟩,
       ⟨c.row, c.col - 1⟩, ⟨c.row, c.col⟩, ⟨c.row, c.col + 1⟩,
       ⟨c.row + 1, c.col - 1⟩, ⟨c.row + 1, c.col⟩, ⟨c.row + 1, c.col + 1⟩] := by
  unfold Coord.iter_range intRange
  have h3r : (c.row + 1 + 1 - (c.row - 1)).toNat = 3 := by omega
  have h3c : (c.col + 1 + 1 - (c.col - 1)).toNat = 3 := by omega
  rw [h3r, h3c]
  simp only [show List.range 3 = [0, 1, 2] from rfl, List.map_cons, List.map_nil,
    List.flatMap_cons, List.flatMap_nil, List.append_nil, List.cons_append, List.nil_append]
  norm_num [Coord.mk.injEq]
  omega

theorem iter_range_one_nodup (c : Coord) : (c.iter_range 1).Nodup := by
  rw [iter_range_one]
  simp [Coord.mk.injEq]
  omega

/-! ### The suicide splash loop -/

theorem suicide_foldl (l : List Coord) (g : Game) (t : Int) (hnd : l.Nodup) :
    (∀ c ∈ l, (l.foldl suicideStep (g, t)).1.get c = splash2 (g.get c)) ∧
    (∀ c, c ∉ l → (l.foldl suicideStep (g, t)).1.get c = g.get c) ∧
    (l.foldl suicideStep (g, t)).2 = t + 2 * (l.countP (fun c => (g.get c).isSome) : Int) := by
  induction l generalizing g t with
  | nil => simp
  | cons c cs ih =>
    obtain ⟨hc_not, hnd_cs⟩ := List.nodup_cons.mp hnd
    cases hg : g.get c with
    | none =>
      have hstep : suicideStep (g, t) c = (g, t) := by
        unfold suicideStep
        simp [hg]
      rw [List.foldl_cons, hstep]
      obtain ⟨ih1, ih2, ih3⟩ := ih g t hnd_cs
      refine ⟨?_, ?_, ?_⟩
      · intro d hd
        rcases List.mem_cons.mp hd with rfl | hd'
        · rw [ih2 d hc_not, hg]
          rfl
        · exact ih1 d hd'
      · intro d hd
        exact ih2 d (fun h => hd (List.mem_cons_of_mem _ h))
      · rw [ih3, List.countP_cons]
        simp [hg]
    | some w =>
      have hstep : suicideStep (g, t) c = (g.mod_health c (-2), t + 2) := by
        unfold suicideStep
        simp [hg]
      rw [List.foldl_cons, hstep]
      obtain ⟨ih1, ih2, ih3⟩ := ih (g.mod_health c (-2)) (t + 2) hnd_cs
      have hne : ∀ d, d ≠ c → (g.mod_health c (-2)).get d = g.get d :=
        fun d hd => Game.get_mod_health_ne (-2) hd
      have hself : (g.mod_health c (-2)).get c = splash2 (g.get c) := by
        rw [hg]
        show (g.mod_health c (-2)).get c =
          if w.health ≤ 2 then none else some (w.mod_health (-2))
        rw [Game.get_mod_health_self (-2) hg]
        rcases le_or_lt w.health 2 with h2 | h2
        · rw [if_pos (by omega : w.health + (-2) ≤ 0), if_pos h2]
        · rw [if_neg (by omega : ¬ (w.health + (-2) ≤ 0)), if_neg (by omega)]
      refine ⟨?_, ?_, ?_⟩
      · intro d hd
        rcases List.mem_cons.mp hd with rfl | hd'
        · rw [ih2 d hc_not]
          exact hself
        · rw [ih1 d hd', hne d (by rintro rfl; exact hc_not hd')]
      · intro d hd
        have hd1 : d ∉ cs := fun h => hd (List.mem_cons_of_mem _ h)
        have hdc : d ≠ c := fun h => hd (h ▸ List.mem_cons_self _ _)
        rw [ih2 d hd1, hne d hdc]
      · rw [ih3, List.countP_cons]
        have hcount : cs.countP (fun d => ((g.mod_health c (-2)).get d).isSome) =
            cs.countP (fun d => (g.get d).isSome) := by
          apply List.countP_congr
          intro d hd
          rw [hne d (by rintro rfl; exact hc_not hd)]
        rw [hcount]
        simp [hg]
        ring

/-! ### Move candidates and legality -/

theorem Game.is_valid_coord_iff {g : Game} {c : Coord} :
    g.is_valid_coord c = true ↔
      0 ≤ c.row ∧ c.row < g.options.dim ∧ 0 ≤ c.col ∧ c.col < g.options.dim := by
  unfold Game.is_valid_coord
  split <;> rename_i h <;> simp <;> omega

theorem Game.is_valid_move_self {g : Game} {c : Coord} {u : Unit}
    (h : g.get c = some u) (hp : u.player = g.next_player) :
    g.is_valid_move ⟨c, c⟩ = true := by
  have hv := Game.get_some_valid h
  unfold Game.is_valid_move
  simp [hv, h, hp]

theorem Game.mem_player_units {g : Game} {p : Player} {c : Coord} {u : Unit} :
    (c, u) ∈ g.player_units p ↔ g.get c = some u ∧ u.player = p := by
  unfold Game.player_units
  rw [List.mem_filterMap]
  constructor
  · rintro ⟨d, hd, hf⟩
    cases hgd : g.get d with
    | none => rw [hgd] at hf; simp at hf
    | some w =>
      rw [hgd] at hf
      dsimp only at hf
      by_cases hw : w.player = p
      · rw [if_pos hw] at hf
        obtain ⟨rfl, rfl⟩ : d = c ∧ w = u := by
          simpa [Prod.ext_iff] using hf
        exact ⟨hgd, hw⟩
      · rw [if_neg hw] at hf
        simp at hf
  · rintro ⟨hgc, hup⟩
    refine ⟨c, ?_, ?_⟩
    · have hv := Game.is_valid_coord_iff.mp (Game.get_some_valid hgc)
      rw [mem_iter_rectangle]
      unfold CoordPair.from_dim
      simp only
      omega
    · rw [hgc]
      dsimp only
      rw [if_pos hup]

theorem Game.mem_move_candidates_valid {g : Game} {m : CoordPair}
    (h : m ∈ g.move_candidates) : g.is_valid_move m = true := by
  unfold Game.move_candidates at h
  rw [List.mem_flatMap] at h
  obtain ⟨⟨c, u⟩, hsu, hm⟩ := h
  rw [List.mem_append] at hm
  rcases hm with hm | hm
  · rw [List.mem_map] at hm
    obtain ⟨d, hd, rfl⟩ := hm
    exact (List.mem_filter.mp hd).2
  · have hm' : m = ⟨c, c⟩ := by simpa using hm
    subst hm'
    obtain ⟨hget, hp⟩ := Game.mem_player_units.mp hsu
    exact Game.is_valid_move_self hget hp

theorem Game.self_pair_mem_candidates {g : Game} {c : Coord} {u : Unit}
    (h : g.get c = some u) (hp : u.player = g.next_player) :
    (⟨c, c⟩ : CoordPair) ∈ g.move_candidates := by
  unfold Game.move_candidates
  rw [List.mem_flatMap]
  exact ⟨(c, u), Game.mem_player_units.mpr ⟨h, hp⟩, by simp⟩

theorem Game.move_candidates_ne_nil {g : Game} {c : Coord} {u : Unit}
    (h : g.get c = some u) (hp : u.player = g.next_player) :
    g.move_candidates ≠ [] := by
  intro hnil
  have hmem := Game.self_pair_mem_candidates h hp
  rw [hnil] at hmem
  exact List.not_mem_nil _ hmem

/-! ### The best move returned by the sibling loops is a candidate -/

theorem maxLoop_best_mem {ab : Bool} {beta : Int} {child : CoordPair → Int → Int} :
    ∀ (l : List CoordPair) (e : Int) (b : Option CoordPair) (alpha : Int) (m : CoordPair),
      (maxLoop ab beta child l e b alpha).2 = some m → m ∈ l ∨ b = some m := by
  intro l
  induction l with
  | nil =>
    intro e b alpha m h
    exact Or.inr h
  | cons x xs ih =>
    intro e b alpha m h
    have hbest : (if child x alpha > e then some x else b) = some m →
        m ∈ x :: xs ∨ b = some m := by
      intro hm
      by_cases hgt : child x alpha > e
      · rw [if_pos hgt] at hm
        injection hm with hm
        subst hm
        exact Or.inl (List.mem_cons_self _ _)
      · rw [if_neg hgt] at hm
        exact Or.inr hm
    have hrec : ∀ e' b' a',
        (maxLoop ab beta child xs e' b' a').2 = some m →
        (b' = some m → m ∈ x :: xs ∨ b = some m) → m ∈ x :: xs ∨ b = some m := by
      intro e' b' a' h' hb'
      rcases ih e' b' a' m h' with hmem | hb
      · exact Or.inl (List.mem_cons_of_mem _ hmem)
      · exact hb' hb
    unfold maxLoop at h
    by_cases hab : ab
    · rw [if_pos hab] at h
      by_cases hcut : beta ≤ max alpha (child x alpha)
      · rw [if_pos hcut] at h
        exact hbest h
      · rw [if_neg hcut] at h
        exact hrec _ _ _ h hbest
    · rw [if_neg hab] at h
      exact hrec _ _ _ h hbest

theorem minLoop_best_mem {ab : Bool} {alpha : Int} {child : CoordPair → Int → Int} :
    ∀ (l : List CoordPair) (e : Int) (b : Option CoordPair) (beta : Int) (m : CoordPair),
      (minLoop ab alpha child l e b beta).2 = some m → m ∈ l ∨ b = some m := by
  intro l
  induction l with
  | nil =>
    intro e b beta m h
    exact Or.inr h
  | cons x xs ih =>
    intro e b beta m h
    have hbest : (if child x beta < e then some x else b) = some m →
        m ∈ x :: xs ∨ b = some m := by
      intro hm
      by_cases hlt : child x beta < e
      · rw [if_pos hlt] at hm
        injection hm with hm
        subst hm
        exact Or.inl (List.mem_cons_self _ _)
      · rw [if_neg hlt] at hm
        exact Or.inr hm
    have hrec : ∀ e' b' bb',
        (minLoop ab alpha child xs e' b' bb').2 = some m →
        (b' = some m → m ∈ x :: xs ∨ b = some m) → m ∈ x :: xs ∨ b = some m := by
      intro e' b' bb' h' hb'
      rcases ih e' b' bb' m h' with hmem | hb
      · exact Or.inl (List.mem_cons_of_mem _ hmem)
      · exact hb' hb
    unfold minLoop at h
    by_cases hab : ab
    · rw [if_pos hab] at h
      by_cases hcut : min beta (child x beta) ≤ alpha
      · rw [if_pos hcut] at h
        exact hbest h
      · rw [if_neg hcut] at h
        exact hrec _ _ _ h hbest
    · rw [if_neg hab] at h
      exact hrec _ _ _ h hbest

theorem Game.minimax_best_mem {H : HFun} {ab : Bool} :
    ∀ (d : Nat) (maxi : Bool) (alpha beta : Int) (g : Game)
      (mv : Option CoordPair) (ac : Option ActionType) (pv : Option Game) (m : CoordPair),
      (Game.minimax H ab d maxi alpha beta g mv ac pv).2.1 = some m →
      m ∈ g.move_candidates := by
  intro d maxi alpha beta g mv ac pv m h
  cases d with
  | zero => simp [Game.minimax] at h
  | succ d =>
    unfold Game.minimax at h
    by_cases hf : g.is_finished
    · simp [hf] at h
    · simp only [hf, Bool.false_eq_true, if_false] at h
      by_cases hm : maxi
      · simp only [hm, if_true] at h
        rcases maxLoop_best_mem _ _ _ _ m h with hmem | hb
        · exact hmem
        · simp at hb
      · simp only [hm, Bool.false_eq_true, if_false] at h
        rcases minLoop_best_mem _ _ _ _ m h with hmem | hb
        · exact hmem
        · simp at hb

/-! ### Fold lemmas for the sibling loops -/

theorem imax_sel (a b : Int) : (if b > a then b else a) = max a b := by
  by_cases h : b > a
  · rw [if_pos h, max_eq_right (le_of_lt h)]
  · rw [if_neg h, max_eq_left (by omega)]

theorem imin_sel (a b : Int) : (if b < a then b else a) = min a b := by
  by_cases h : b < a
  · rw [if_pos h, min_eq_right (le_of_lt h)]
  · rw [if_neg h, min_eq_left (by omega)]

theorem foldMax_cons (f : CoordPair → Int) (x : CoordPair) (xs : List CoordPair) (e : Int) :
    foldMax f (x :: xs) e = foldMax f xs (max e (f x)) := rfl

theorem foldMin_cons (f : CoordPair → Int) (x : CoordPair) (xs : List CoordPair) (e : Int) :
    foldMin f (x :: xs) e = foldMin f xs (min e (f x)) := rfl

theorem foldMax_ge_init (f : CoordPair → Int) (l : List CoordPair) (e : Int) :
    e ≤ foldMax f l e := by
  induction l generalizing e with
  | nil => exact le_refl _
  | cons x xs ih =>
    rw [foldMax_cons]
    exact le_trans (le_max_left _ _) (ih _)

theorem foldMin_le_init (f : CoordPair → Int) (l : List CoordPair) (e : Int) :
    foldMin f l e ≤ e := by
  induction l generalizing e with
  | nil => exact le_refl _
  | cons x xs ih =>
    rw [foldMin_cons]
    exact le_trans (ih _) (min_le_left _ _)

theorem foldMax_mono_init (f : CoordPair → Int) (l : List CoordPair) {e₁ e₂ : Int}
    (h : e₁ ≤ e₂) : foldMax f l e₁ ≤ foldMax f l e₂ := by
  induction l generalizing e₁ e₂ with
  | nil => exact h
  | cons x xs ih =>
    rw [foldMax_cons, foldMax_cons]
    exact ih (by omega)

theorem foldMin_mono_init (f : CoordPair → Int) (l : List CoordPair) {e₁ e₂ : Int}
    (h : e₁ ≤ e₂) : foldMin f l e₁ ≤ foldMin f l e₂ := by
  induction l generalizing e₁ e₂ with
  | nil => exact h
  | cons x xs ih =>
    rw [foldMin_cons, foldMin_cons]
    exact ih (by omega)

theorem foldMax_max_right (f : CoordPair → Int) (l : List CoordPair) (i j : Int) :
    foldMax f l (max i j) = max (foldMax f l i) j := by
  induction l generalizing i with
  | nil => rfl
  | cons x xs ih =>
    rw [foldMax_cons, foldMax_cons]
    rw [show max (max i j) (f x) = max (max i (f x)) j by omega]
    exact ih _

theorem foldMin_min_right (f : CoordPair → Int) (l : List CoordPair) (i j : Int) :
    foldMin f l (min i j) = min (foldMin f l i) j := by
  induction l generalizing i with
  | nil => rfl
  | cons x xs ih =>
    rw [foldMin_cons, foldMin_cons]
    rw [show min (min i j) (f x) = min (min i (f x)) j by omega]
    exact ih _

theorem foldMax_congr {f f' : CoordPair → Int} {l : List CoordPair}
    (h : ∀ m ∈ l, f m = f' m) (e : Int) : foldMax f l e = foldMax f' l e := by
  induction l generalizing e with
  | nil => rfl
  | cons x xs ih =>
    rw [foldMax_cons, foldMax_cons, h x (List.mem_cons_self _ _)]
    exact ih (fun m hm => h m (List.mem_cons_of_mem _ hm)) _

theorem foldMin_congr {f f' : CoordPair → Int} {l : List CoordPair}
    (h : ∀ m ∈ l, f m = f' m) (e : Int) : foldMin f l e = foldMin f' l e := by
  induction l generalizing e with
  | nil => rfl
  | cons x xs ih =>
    rw [foldMin_cons, foldMin_cons, h x (List.mem_cons_self _ _)]
    exact ih (fun m hm => h m (List.mem_cons_of_mem _ hm)) _

theorem foldMax_bounds {f : CoordPair → Int} {l : List CoordPair} {e lo hi : Int}
    (hlo : lo ≤ e) (hhi : e ≤ hi) (h : ∀ m ∈ l, lo ≤ f m ∧ f m ≤ hi) :
    lo ≤ foldMax f l e ∧ foldMax f l e ≤ hi := by
  induction l generalizing e with
  | nil => exact ⟨hlo, hhi⟩
  | cons x xs ih =>
    rw [foldMax_cons]
    have hx := h x (List.mem_cons_self _ _)
    exact ih (by omega) (by omega) (fun m hm => h m (List.mem_cons_of_mem _ hm))

theorem foldMin_bounds {f : CoordPair → Int} {l : List CoordPair} {e lo hi : Int}
    (hlo : lo ≤ e) (hhi : e ≤ hi) (h : ∀ m ∈ l, lo ≤ f m ∧ f m ≤ hi) :
    lo ≤ foldMin f l e ∧ foldMin f l e ≤ hi := by
  induction l generalizing e with
  | nil => exact ⟨hlo, hhi⟩
  | cons x xs ih =>
    rw [foldMin_cons]
    have hx := h x (List.mem_cons_self _ _)
    exact ih (by omega) (by omega) (fun m hm => h m (List.mem_cons_of_mem _ hm))

/-! ### The pruning-disabled loop is a plain fold -/

theorem maxLoop_false_eq {beta : Int} {child : CoordPair → Int → Int} :
    ∀ (l : List CoordPair) (e : Int) (b : Option CoordPair) (alpha : Int),
      (maxLoop false beta child l e b alpha).1 = foldMax (fun m => child m alpha) l e := by
  intro l
  induction l with
  | nil => intro e b alpha; rfl
  | cons x xs ih =>
    intro e b alpha
    unfold maxLoop
    simp only [Bool.false_eq_true, if_false]
    rw [ih, foldMax_cons, imax_sel]

theorem minLoop_false_eq {alpha : Int} {child : CoordPair → Int → Int} :
    ∀ (l : List CoordPair) (e : Int) (b : Option CoordPair) (beta : Int),
      (minLoop false alpha child l e b beta).1 = foldMin (fun m => child m beta) l e := by
  intro l
  induction l with
  | nil => intro e b beta; rfl
  | cons x xs ih =>
    intro e b beta
    unfold minLoop
    simp only [Bool.false_eq_true, if_false]
    rw [ih, foldMin_cons, imin_sel]

theorem maxLoop_false_congr {beta beta' : Int} {child child' : CoordPair → Int → Int} :
    ∀ (l : List CoordPair) (e : Int) (b : Option CoordPair) (alpha alpha' : Int),
      (∀ m a a', child m a = child' m a') →
      maxLoop false beta child l e b alpha = maxLoop false beta' child' l e b alpha' := by
  intro l
  induction l with
  | nil => intro e b alpha alpha' h; rfl
  | cons x xs ih =>
    intro e b alpha alpha' h
    unfold maxLoop
    simp only [Bool.false_eq_true, if_false]
    rw [h x alpha alpha']
    exact ih _ _ _ _ h

theorem minLoop_false_congr {alpha alpha' : Int} {child child' : CoordPair → Int → Int} :
    ∀ (l : List CoordPair) (e : Int) (b : Option CoordPair) (beta beta' : Int),
      (∀ m a a', child m a = child' m a') →
      minLoop false alpha child l e b beta = minLoop false alpha' child' l e b beta' := by
  intro l
  induction l with
  | nil => intro e b beta beta' h; rfl
  | cons x xs ih =>
    intro e b beta beta' h
    unfold minLoop
    simp only [Bool.false_eq_true, if_false]
    rw [h x beta beta']
    exact ih _ _ _ _ h

/-! ### Pruning-disabled minimax ignores its window -/

theorem Game.minimax_false_window (H : HFun) :
    ∀ (d : Nat) (maxi : Bool) (alpha beta alpha' beta' : Int) (g : Game)
      (mv : Option CoordPair) (ac : Option ActionType) (pv : Option Game),
      Game.minimax H false d maxi alpha beta g mv ac pv =
      Game.minimax H false d maxi alpha' beta' g mv ac pv := by
  intro d
  induction d with
  | zero => intro maxi alpha beta alpha' beta' g mv ac pv; rfl
  | succ d ih =>
    intro maxi alpha beta alpha' beta' g mv ac pv
    unfold Game.minimax
    by_cases hf : g.is_finished
    · simp [hf]
    · simp only [hf, Bool.false_eq_true, if_false]
      by_cases hm : maxi
      · simp only [hm, if_true]
        rw [maxLoop_false_congr g.move_candidates MIN_HEURISTIC_SCORE none alpha alpha'
          (fun m a a' => congrArg Prod.fst
            (ih false a beta a' beta' (g.search_child m) (some m) (g.determine_action m) (some g)))]
      · simp only [hm, Bool.false_eq_true, if_false]
        rw [minLoop_false_congr g.move_candidates MAX_HEURISTIC_SCORE none beta beta'
          (fun m b b' => congrArg Prod.fst
            (ih true alpha b alpha' b' (g.search_child m) (some m) (g.determine_action m) (some g)))]

/-- The plain (pruning-disabled) value of a non-terminal maximizing node is the
fold of the plain child values. -/
theorem Game.minimax_false_fst_max (H : HFun) {d : Nat} {g : Game}
    (hf : ¬ g.is_finished = true) (alpha beta : Int)
    (mv : Option CoordPair) (ac : Option ActionType) (pv : Option Game) :
    (Game.minimax H false (d + 1) true alpha beta g mv ac pv).1 =
      foldMax (fun m => (Game.minimax H false d false MIN_HEURISTIC_SCORE MAX_HEURISTIC_SCORE
          (g.search_child m) (some m) (g.determine_action m) (some g)).1)
        g.move_candidates MIN_HEURISTIC_SCORE := by
  conv_lhs => unfold Game.minimax
  simp only [hf, Bool.false_eq_true, if_false, if_true]
  rw [maxLoop_false_eq]
  exact foldMax_congr (fun m _ => congrArg Prod.fst
    (Game.minimax_false_window H d false alpha beta MIN_HEURISTIC_SCORE MAX_HEURISTIC_SCORE
      (g.search_child m) (some m) (g.determine_action m) (some g))) _

/-- The plain value of a non-terminal minimizing node is the fold of the plain
child values. -/
theorem Game.minimax_false_fst_min (H : HFun) {d : Nat} {g : Game}
    (hf : ¬ g.is_finished = true) (alpha beta : Int)
    (mv : Option CoordPair) (ac : Option ActionType) (pv : Option Game) :
    (Game.minimax H false (d + 1) false alpha beta g mv ac pv).1 =
      foldMin (fun m => (Game.minimax H false d true MIN_HEURISTIC_SCORE MAX_HEURISTIC_SCORE
          (g.search_child m) (some m) (g.determine_action m) (some g)).1)
        g.move_candidates MAX_HEURISTIC_SCORE := by
  conv_lhs => unfold Game.minimax
  simp only [hf, Bool.false_eq_true, if_false]
  rw [minLoop_false_eq]
  exact foldMin_congr (fun m _ => congrArg Prod.fst
    (Game.minimax_false_window H d true alpha beta MIN_HEURISTIC_SCORE MAX_HEURISTIC_SCORE
      (g.search_child m) (some m) (g.determine_action m) (some g))) _

/-- With a leaf evaluator bounded by the two sentinels, every plain minimax
value is bounded by them too. -/
theorem Game.minimax_false_bounds (H : HFun)
    (hH : ∀ g mv ac pv, MIN_HEURISTIC_SCORE ≤ H g mv ac pv ∧ H g mv ac pv ≤ MAX_HEURISTIC_SCORE) :
    ∀ (d : Nat) (maxi : Bool) (g : Game)
      (mv : Option CoordPair) (ac : Option ActionType) (pv : Option Game),
      MIN_HEURISTIC_SCORE ≤
        (Game.minimax H false d maxi MIN_HEURISTIC_SCORE MAX_HEURISTIC_SCORE g mv ac pv).1 ∧
      (Game.minimax H false d maxi MIN_HEURISTIC_SCORE MAX_HEURISTIC_SCORE g mv ac pv).1 ≤
        MAX_HEURISTIC_SCORE := by
  have hsent : MIN_HEURISTIC_SCORE ≤ MAX_HEURISTIC_SCORE := by
    norm_num [MIN_HEURISTIC_SCORE, MAX_HEURISTIC_SCORE]
  intro d
  induction d with
  | zero => intro maxi g mv ac pv; exact hH g mv ac pv
  | succ d ih =>
    intro maxi g mv ac pv
    by_cases hf : g.is_finished
    · unfold Game.minimax
      simp only [hf, if_true]
      exact hH g mv ac pv
    · by_cases hm : maxi
      · subst hm
        rw [Game.minimax_false_fst_max H hf]
        exact foldMax_bounds (le_refl _) hsent
          (fun m _ => ih false (g.search_child m) (some m) (g.determine_action m) (some g))
      · have hm' : maxi = false := by simpa using hm
        subst hm'
        rw [Game.minimax_false_fst_min H hf]
        exact foldMin_bounds hsent (le_refl _)
          (fun m _ => ih true (g.search_child m) (some m) (g.determine_action m) (some g))

/-! ### Fail-soft bounds for the pruning-enabled loops

`v m` stands for the plain (pruning-disabled) value of the child reached by
move `m`; `child m a` is the pruning-enabled value of that child searched with
window `(a, beta)` (max loop) or `(alpha, a)` (min loop).  The two lemmas per
loop sandwich the pruned result between `min (plain) β` and `max (plain) α`,
which at the root window forces equality. -/

theorem maxLoop_true_ge {beta : Int} {child : CoordPair → Int → Int} {v : CoordPair → Int}
    (hc : ∀ m a, a < beta → min (v m) beta ≤ child m a) :
    ∀ (l : List CoordPair) (e : Int) (b : Option CoordPair) (alpha : Int), alpha < beta →
      min (foldMax v l e) beta ≤ (maxLoop true beta child l e b alpha).1 := by
  intro l
  induction l with
  | nil =>
    intro e b alpha hab
    exact min_le_left _ _
  | cons x xs ih =>
    intro e b alpha hab
    have hx := hc x alpha hab
    rw [foldMax_cons]
    unfold maxLoop
    dsimp only
    rw [if_pos rfl]
    by_cases hcut : beta ≤ max alpha (child x alpha)
    · rw [if_pos hcut, imax_sel]
      have hfb : min (foldMax v xs (max e (v x))) beta ≤ beta := min_le_right _ _
      omega
    · rw [if_neg hcut, imax_sel]
      have hab' : max alpha (child x alpha) < beta := by omega
      have ihx := ih (max e (child x alpha)) (if child x alpha > e then some x else b)
        (max alpha (child x alpha)) hab'
      rcases le_or_lt (v x) beta with hvb | hvb
      · have hmono : foldMax v xs (max e (v x)) ≤ foldMax v xs (max e (child x alpha)) :=
          foldMax_mono_init _ _ (by omega)
        omega
      · have hge : max e (child x alpha) ≤ foldMax v xs (max e (child x alpha)) :=
          foldMax_ge_init _ _ _
        have hfb : min (foldMax v xs (max e (v x))) beta ≤ beta := min_le_right _ _
        omega

theorem maxLoop_true_le {beta : Int} {child : CoordPair → Int → Int} {v : CoordPair → Int}
    (hc : ∀ m a, a < beta → child m a ≤ max (v m) a) :
    ∀ (l : List CoordPair) (e : Int) (b : Option CoordPair) (alpha : Int), alpha < beta →
      (maxLoop true beta child l e b alpha).1 ≤ max (foldMax v l e) alpha := by
  intro l
  induction l with
  | nil =>
    intro e b alpha hab
    exact le_max_left _ _
  | cons x xs ih =>
    intro e b alpha hab
    have hx := hc x alpha hab
    rw [foldMax_cons]
    unfold maxLoop
    dsimp only
    rw [if_pos rfl]
    by_cases hcut : beta ≤ max alpha (child x alpha)
    · rw [if_pos hcut, imax_sel]
      have hge : max e (v x) ≤ foldMax v xs (max e (v x)) := foldMax_ge_init _ _ _
      omega
    · rw [if_neg hcut, imax_sel]
      have hab' : max alpha (child x alpha) < beta := by omega
      have ihx := ih (max e (child x alpha)) (if child x alpha > e then some x else b)
        (max alpha (child x alpha)) hab'
      have hmono : foldMax v xs (max (max e (child x alpha)) (max alpha (child x alpha))) ≤
          foldMax v xs (max (max e (v x)) alpha) :=
        foldMax_mono_init _ _ (by omega)
      have h1 : foldMax v xs (max (max e (child x alpha)) (max alpha (child x alpha))) =
          max (foldMax v xs (max e (child x alpha))) (max alpha (child x alpha)) :=
        foldMax_max_right _ _ _ _
      have h2 : foldMax v xs (max (max e (v x)) alpha) =
          max (foldMax v xs (max e (v x))) alpha :=
        foldMax_max_right _ _ _ _
      omega

theorem minLoop_true_ge {alpha : Int} {child : CoordPair → Int → Int} {v : CoordPair → Int}
    (hc : ∀ m b, alpha < b → min (v m) b ≤ child m b) :
    ∀ (l : List CoordPair) (e : Int) (b : Option CoordPair) (beta : Int), alpha < beta →
      min (foldMin v l e) beta ≤ (minLoop true alpha child l e b beta).1 := by
  intro l
  induction l with
  | nil =>
    intro e b beta hab
    exact min_le_left _ _
  | cons x xs ih =>
    intro e b beta hab
    have hx := hc x beta hab
    rw [foldMin_cons]
    unfold minLoop
    dsimp only
    rw [if_pos rfl]
    by_cases hcut : min beta (child x beta) ≤ alpha
    · rw [if_pos hcut, imin_sel]
      have hle : foldMin v xs (min e (v x)) ≤ min e (v x) := foldMin_le_init _ _ _
      have hfb : min (foldMin v xs (min e (v x))) beta ≤ foldMin v xs (min e (v x)) :=
        min_le_left _ _
      omega
    · rw [if_neg hcut, imin_sel]
      have hab' : alpha < min beta (child x beta) := by omega
      have ihx := ih (min e (child x beta)) (if child x beta < e then some x else b)
        (min beta (child x beta)) hab'
      have hmono : foldMin v xs (min (min e (v x)) beta) ≤
          foldMin v xs (min (min e (child x beta)) (min beta (child x beta))) :=
        foldMin_mono_init _ _ (by omega)
      have h1 : foldMin v xs (min (min e (v x)) beta) =
          min (foldMin v xs (min e (v x))) beta :=
        foldMin_min_right _ _ _ _
      have h2 : foldMin v xs (min (min e (child x beta)) (min beta (child x beta))) =
          min (foldMin v xs (min e (child x beta))) (min beta (child x beta)) :=
        foldMin_min_right _ _ _ _
      omega

theorem minLoop_true_le {alpha : Int} {child : CoordPair → Int → Int} {v : CoordPair → Int}
    (hc : ∀ m b, alpha < b → child m b ≤ max (v m) alpha) :
    ∀ (l : List CoordPair) (e : Int) (b : Option CoordPair) (beta : Int), alpha < beta →
      (minLoop true alpha child l e b beta).1 ≤ max (foldMin v l e) alpha := by
  intro l
  induction l with
  | nil =>
    intro e b beta hab
    exact le_max_left _ _
  | cons x xs ih =>
    intro e b beta hab
    have hx := hc x beta hab
    rw [foldMin_cons]
    unfold minLoop
    dsimp only
    rw [if_pos rfl]
    by_cases hcut : min beta (child x beta) ≤ alpha
    · rw [if_pos hcut, imin_sel]
      have hfb : max (foldMin v xs (min e (v x))) alpha ≥ alpha := le_max_right _ _
      omega
    · rw [if_neg hcut, imin_sel]
      have hab' : alpha < min beta (child x beta) := by omega
      have ihx := ih (min e (child x beta)) (if child x beta < e then some x else b)
        (min beta (child x beta)) hab'
      rcases le_or_lt (child x beta) (v x) with hcv | hcv
      · have hmono : foldMin v xs (min e (child x beta)) ≤ foldMin v xs (min e (v x)) :=
          foldMin_mono_init _ _ (by omega)
        omega
      · omega

/-- Fail-soft sandwich: for any window `alpha < beta`, the pruning-enabled
score lies between `min (plain score) beta` and `max (plain score) alpha`,
where the plain score is the pruning-disabled search of the same node. -/
theorem Game.minimax_true_sandwich (H : HFun) :
    ∀ (d : Nat) (maxi : Bool) (g : Game)
      (mv : Option CoordPair) (ac : Option ActionType) (pv : Option Game)
      (alpha beta : Int), alpha < beta →
      min ((Game.minimax H false d maxi MIN_HEURISTIC_SCORE MAX_HEURISTIC_SCORE g mv ac pv).1)
          beta ≤
        (Game.minimax H true d maxi alpha beta g mv ac pv).1 ∧
      (Game.minimax H true d maxi alpha beta g mv ac pv).1 ≤
        max ((Game.minimax H false d maxi MIN_HEURISTIC_SCORE MAX_HEURISTIC_SCORE g mv ac pv).1)
          alpha := by
  intro d
  induction d with
  | zero =>
    intro maxi g mv ac pv alpha beta hab
    exact ⟨min_le_left _ _, le_max_left _ _⟩
  | succ d ih =>
    intro maxi g mv ac pv alpha beta hab
    by_cases hf : g.is_finished
    · have h1 : Game.minimax H true (d + 1) maxi alpha beta g mv ac pv =
          (H g mv ac pv, none, 0) := by
        unfold Game.minimax
        simp [hf]
      have h2 : Game.minimax H false (d + 1) maxi MIN_HEURISTIC_SCORE MAX_HEURISTIC_SCORE
          g mv ac pv = (H g mv ac pv, none, 0) := by
        unfold Game.minimax
        simp [hf]
      rw [h1, h2]
      exact ⟨min_le_left _ _, le_max_left _ _⟩
    · by_cases hm : maxi
      · subst hm
        rw [Game.minimax_false_fst_max H hf]
        have htrue : (Game.minimax H true (d + 1) true alpha beta g mv ac pv).1 =
            (maxLoop true beta
              (fun m a => (Game.minimax H true d false a beta (g.search_child m)
                (some m) (g.determine_action m) (some g)).1)
              g.move_candidates MIN_HEURISTIC_SCORE none alpha).1 := by
          conv_lhs => unfold Game.minimax
          simp [hf]
        rw [htrue]
        constructor
        · exact maxLoop_true_ge
            (fun m a ha =>
              (ih false (g.search_child m) (some m) (g.determine_action m) (some g) a beta ha).1)
            _ _ _ _ hab
        · exact maxLoop_true_le
            (fun m a ha =>
              (ih false (g.search_child m) (some m) (g.determine_action m) (some g) a beta ha).2)
            _ _ _ _ hab
      · have hm' : maxi = false := by simpa using hm
        subst hm'
        rw [Game.minimax_false_fst_min H hf]
        have htrue : (Game.minimax H true (d + 1) false alpha beta g mv ac pv).1 =
            (minLoop true alpha
              (fun m b => (Game.minimax H true d true alpha b (g.search_child m)
                (some m) (g.determine_action m) (some g)).1)
              g.move_candidates MAX_HEURISTIC_SCORE none beta).1 := by
          conv_lhs => unfold Game.minimax
          simp [hf]
        rw [htrue]
        constructor
        · exact minLoop_true_ge
            (fun m b hb =>
              (ih true (g.search_child m) (some m) (g.determine_action m) (some g) alpha b hb).1)
            _ _ _ _ hab
        · exact minLoop_true_le
            (fun m b hb =>
              (ih true (g.search_child m) (some m) (g.determine_action m) (some g) alpha b hb).2)
            _ _ _ _ hab

/-- With a sentinel-bounded leaf evaluator, alpha-beta pruning does not change
the root score of `minimax` searched at the root window. -/
theorem Game.minimax_alpha_beta_eq (H : HFun)
    (hH : ∀ g mv ac pv, MIN_HEURISTIC_SCORE ≤ H g mv ac pv ∧ H g mv ac pv ≤ MAX_HEURISTIC_SCORE)
    (d : Nat) (maxi : Bool) (g : Game)
    (mv : Option CoordPair) (ac : Option ActionType) (pv : Option Game) :
    (Game.minimax H true d maxi MIN_HEURISTIC_SCORE MAX_HEURISTIC_SCORE g mv ac pv).1 =
    (Game.minimax H false d maxi MIN_HEURISTIC_SCORE MAX_HEURISTIC_SCORE g mv ac pv).1 := by
  have hlt : MIN_HEURISTIC_SCORE < MAX_HEURISTIC_SCORE := by
    norm_num [MIN_HEURISTIC_SCORE, MAX_HEURISTIC_SCORE]
  have hs := Game.minimax_true_sandwich H d maxi g mv ac pv
    MIN_HEURISTIC_SCORE MAX_HEURISTIC_SCORE hlt
  have hb := Game.minimax_false_bounds H hH d maxi g mv ac pv
  omega

/-! ### Attack resolution -/

theorem damage_table_pos : ∀ a b : UnitType, 1 ≤ tableLookup damage_table a b := by
  intro a b
  cases a <;> cases b <;> decide

theorem Game.determine_action_attack_of {g : Game} {coords : CoordPair} {A T : Unit}
    (hs : g.get coords.src = some A) (hd : g.get coords.dst = some T)
    (hp : A.player ≠ T.player) :
    g.determine_action coords = some ActionType.ATTACK ∧ coords.src ≠ coords.dst := by
  have hne : coords.src ≠ coords.dst := by
    intro h
    rw [h, hd] at hs
    injection hs with h'
    exact hp (by rw [h'])
  refine ⟨?_, hne⟩
  unfold Game.determine_action
  rw [if_neg hne, hd]
  dsimp only
  rw [hs]
  dsimp only
  rw [if_neg hp]

theorem Game.perform_move_attack {g : Game} {coords : CoordPair} {A T : Unit}
    (hv : g.is_valid_move coords = true)
    (hs : g.get coords.src = some A) (hd : g.get coords.dst = some T)
    (hp : A.player ≠ T.player) :
    (g.perform_move coords).1 = g.perform_attack coords A T := by
  obtain ⟨hda, _⟩ := Game.determine_action_attack_of hs hd hp
  unfold Game.perform_move
  rw [if_pos hv, hda]
  dsimp only
  rw [hs, hd]

theorem Game.perform_attack_get {g : Game} {coords : CoordPair} {A T : Unit}
    (hs : g.get coords.src = some A) (hd : g.get coords.dst = some T)
    (hne : coords.src ≠ coords.dst) :
    ((g.perform_attack coords A T).get coords.src =
        (if A.health - tableLookup damage_table A.type T.type ≤ 0 then none
         else some (A.mod_health (tableLookup damage_table A.type T.type * (-1))))) ∧
    ((g.perform_attack coords A T).get coords.dst =
        (if T.health - tableLookup damage_table T.type A.type ≤ 0 then none
         else some (T.mod_health (tableLookup damage_table T.type A.type * (-1))))) ∧
    (∀ c, c ≠ coords.src → c ≠ coords.dst → (g.perform_attack coords A T).get c = g.get c) := by
  unfold Game.perform_attack
  dsimp only
  have hsrc1 : (g.mod_health coords.src (tableLookup damage_table A.type T.type * (-1))).get
      coords.src =
      if A.health - tableLookup damage_table A.type T.type ≤ 0 then none
      else some (A.mod_health (tableLookup damage_table A.type T.type * (-1))) := by
    rw [Game.get_mod_health_self _ hs]
    rcases le_or_lt (A.health - tableLookup damage_table A.type T.type) 0 with h | h
    · rw [if_pos (by omega), if_pos h]
    · rw [if_neg (by omega), if_neg (by omega)]
  have hdst1 : (g.mod_health coords.src (tableLookup damage_table A.type T.type * (-1))).get
      coords.dst = some T := by
    rw [Game.get_mod_health_ne _ (Ne.symm hne)]
    exact hd
  refine ⟨?_, ?_, ?_⟩
  · rw [Game.get_mod_health_ne _ hne]
    exact hsrc1
  · rw [Game.get_mod_health_self _ hdst1]
    rcases le_or_lt (T.health - tableLookup damage_table T.type A.type) 0 with h | h
    · rw [if_pos (by omega), if_pos h]
    · rw [if_neg (by omega), if_neg (by omega)]
  · intro c hcs hcd
    rw [Game.get_mod_health_ne _ hcd, Game.get_mod_health_ne _ hcs]

/-- When the remaining health is positive and the unit started at ≤ 9, the
clamp of `mod_health` is the identity on the subtraction. -/
theorem Unit.mod_health_damage {u : Unit} {d : Int} (hd : 1 ≤ d) (h9 : u.health ≤ 9)
    (hpos : 0 < u.health - d) :
    u.mod_health (d * (-1)) = { u with health := u.health - d } := by
  unfold Unit.mod_health
  rw [if_neg (by omega), if_neg (by omega)]
  have : u.health + d * (-1) = u.health - d := by ring
  rw [this]

/-! ### Engagement lock and direction of advance -/

theorem Game.is_valid_move_empty_adj {g : Game} {coords : CoordPair} {u : Unit}
    (hs : g.get coords.src = some u) (hp : u.player = g.next_player)
    (hadj : coords.dst ∈ coords.src.iter_adjacent)
    (hvd : g.is_valid_coord coords.dst = true)
    (he : g.get coords.dst = none) :
    g.is_valid_move coords = g.unit_movement_restriction coords := by
  have hvs := Game.get_some_valid hs
  have hne : coords.src ≠ coords.dst := by
    intro h
    rw [h, he] at hs
    exact Option.noConfusion hs
  unfold Game.is_valid_move
  rw [if_neg (by simp [hvs, hvd])]
  rw [hs]
  dsimp only
  rw [if_neg (by simp [hp]), if_pos hne, if_pos hadj, he]

theorem Game.is_valid_move_attack {g : Game} {coords : CoordPair} {u v : Unit}
    (hs : g.get coords.src = some u) (hp : u.player = g.next_player)
    (hadj : coords.dst ∈ coords.src.iter_adjacent)
    (hd : g.get coords.dst = some v) (hpv : v.player ≠ u.player) :
    g.is_valid_move coords = true := by
  have hvs := Game.get_some_valid hs
  have hvd := Game.get_some_valid hd
  have hne : coords.src ≠ coords.dst := by
    intro h
    rw [h, hd] at hs
    injection hs with h'
    exact hpv (by rw [h'])
  obtain ⟨hda, _⟩ := Game.determine_action_attack_of hs hd (fun h => hpv h.symm)
  unfold Game.is_valid_move
  rw [if_neg (by simp [hvs, hvd])]
  rw [hs]
  dsimp only
  rw [if_neg (by simp [hp]), if_pos hne, if_pos hadj, hd]
  dsimp only
  rw [if_neg (by simp [hda])]

theorem Game.umr_locked {g : Game} {coords : CoordPair} {u v : Unit} {e : Coord}
    (hs : g.get coords.src = some u)
    (ht : u.type ∈ [UnitType.AI, UnitType.Firewall, UnitType.Program])
    (he : e ∈ coords.src.iter_adjacent) (hev : g.get e = some v)
    (hvp : v.player ≠ u.player) :
    g.unit_movement_restriction coords = false := by
  unfold Game.unit_movement_restriction
  rw [hs]
  dsimp only
  rw [if_pos ht]
  have hlock : (coords.src.iter_adjacent).any (fun coord =>
      match g.get coord with
      | some unit =>
        decide (u.type ∈ [UnitType.AI, UnitType.Firewall, UnitType.Program]) &&
        decide (u.player ≠ unit.player)
      | none => false) = true := by
    rw [List.any_eq_true]
    refine ⟨e, he, ?_⟩
    rw [hev]
    simp only [Bool.and_eq_true, decide_eq_true_eq]
    exact ⟨ht, fun h => hvp h.symm⟩
  split_ifs with h1 h2
  · rfl
  · rfl
  · rfl

theorem Game.umr_unlocked_iff {g : Game} {coords : CoordPair} {u : Unit}
    (hs : g.get coords.src = some u)
    (ht : u.type ∈ [UnitType.AI, UnitType.Firewall, UnitType.Program])
    (hnolock : ∀ e ∈ coords.src.iter_adjacent, ∀ v, g.get e = some v → v.player = u.player) :
    (g.unit_movement_restriction coords = true ↔
      (u.player = Player.Attacker →
        coords.dst.row ≤ coords.src.row ∧ coords.dst.col ≤ coords.src.col) ∧
      (u.player = Player.Defender →
        coords.src.row ≤ coords.dst.row ∧ coords.src.col ≤ coords.dst.col)) := by
  unfold Game.unit_movement_restriction
  rw [hs]
  dsimp only
  rw [if_pos ht]
  have hlock : (coords.src.iter_adjacent).any (fun coord =>
      match g.get coord with
      | some unit =>
        decide (u.type ∈ [UnitType.AI, UnitType.Firewall, UnitType.Program]) &&
        decide (u.player ≠ unit.player)
      | none => false) = false := by
    rw [List.any_eq_false]
    intro e he
    cases hev : g.get e with
    | none => simp
    | some v =>
      have := hnolock e he v hev
      simp [this]
  rw [hlock]
  simp only [Bool.false_eq_true, if_false]
  by_cases hup : u.player = Player.Attacker
  · rw [hup]
    constructor
    · intro h
      refine ⟨fun _ => ?_, fun hcon => nomatch hcon⟩
      by_cases hdir : coords.dst.row - coords.src.row > 0 ∨ coords.dst.col - coords.src.col > 0
      · rw [if_pos ⟨rfl, hdir⟩] at h
        exact absurd h (by simp)
      · push_neg at hdir
        exact ⟨by omega, by omega⟩
    · rintro ⟨hA, -⟩
      obtain ⟨hr, hc⟩ := hA rfl
      rw [if_neg (by rintro ⟨-, hd⟩; omega)]
      rw [if_neg (by rintro ⟨hne, -⟩; exact hne rfl)]
  · have hup' : u.player = Player.Defender := by
      cases hu2 : u.player
      · exact absurd hu2 hup
      · rfl
    rw [hup']
    constructor
    · intro h
      refine ⟨fun hcon => (nomatch hcon), fun _ => ?_⟩
      by_cases hdir : coords.dst.row - coords.src.row < 0 ∨ coords.dst.col - coords.src.col < 0
      · rw [if_neg (by rintro ⟨hcon, -⟩; exact nomatch hcon)] at h
        rw [if_pos ⟨by decide, hdir⟩] at h
        exact absurd h (by simp)
      · push_neg at hdir
        exact ⟨by omega, by omega⟩
    · rintro ⟨-, hD⟩
      obtain ⟨hr, hc⟩ := hD rfl
      rw [if_neg (by rintro ⟨hcon, -⟩; exact nomatch hcon)]
      rw [if_neg (by rintro ⟨-, hd⟩; omega)]

/-! ## Claim theorems -/

/-- C1 (counterexample): on a legal ATTACK of an Attacker Virus (health 9) at
(0,1) against a Defender AI (health 9) at (0,0), the claim predicts the target
at `max(0, 9 − dmg(Virus,AI)) = max(0, 9 − 9) = 0` (removed) and the attacker
at `9 − dmg(AI,Virus) = 6`.  The code instead removes the attacking Virus and
leaves the AI at health 6: `perform_attack` applies `dmg(A,T)` to the source
cell and `dmg(T,A)` to the destination cell. -/
theorem claim_C1_counterexample :
    gVirusAI.is_valid_move attackMove = true ∧
    gVirusAI.determine_action attackMove = some ActionType.ATTACK ∧
    (gVirusAI.perform_move attackMove).1.get ⟨0, 1⟩ = none ∧
    (gVirusAI.perform_move attackMove).1.get ⟨0, 0⟩ =
      some ⟨Player.Defender, UnitType.AI, 6⟩ ∧
    ¬ ((gVirusAI.perform_move attackMove).1.get ⟨0, 0⟩ = none) := by
  decide

/-- C1 (amended): for every legal ATTACK, both damages are computed from the
pre-attack types and healths and applied independently — but each participant
loses the damage-table amount indexed (its OWN type, the opponent's type): the
attacker's post-health is `max(0, hA − dmg(A,T))` and the target's post-health
is `max(0, hT − dmg(T,A))` (encoded by the `if ≤ 0 then removed` form); any
participant reaching health 0 is removed, and every other cell is unchanged. -/
theorem claim_C1_amended (g : Game) (coords : CoordPair) (A T : Unit)
    (hv : g.is_valid_move coords = true)
    (hs : g.get coords.src = some A) (hd : g.get coords.dst = some T)
    (hp : A.player ≠ T.player)
    (hA9 : A.health ≤ 9) (hT9 : T.health ≤ 9) :
    ((g.perform_move coords).1.get coords.src =
       (if A.health ≤ tableLookup damage_table A.type T.type then none
        else some ⟨A.player, A.type,
          A.health - tableLookup damage_table A.type T.type⟩)) ∧
    ((g.perform_move coords).1.get coords.dst =
       (if T.health ≤ tableLookup damage_table T.type A.type then none
        else some ⟨T.player, T.type,
          T.health - tableLookup damage_table T.type A.type⟩)) ∧
    (∀ c, c ≠ coords.src → c ≠ coords.dst → (g.perform_move coords).1.get c = g.get c) := by
  obtain ⟨hda, hne⟩ := Game.determine_action_attack_of hs hd hp
  rw [Game.perform_move_attack hv hs hd hp]
  obtain ⟨h1, h2, h3⟩ := Game.perform_attack_get hs hd hne
  have hposAT := damage_table_pos A.type T.type
  have hposTA := damage_table_pos T.type A.type
  refine ⟨?_, ?_, h3⟩
  · rw [h1]
    rcases le_or_lt A.health (tableLookup damage_table A.type T.type) with h | h
    · rw [if_pos (by omega), if_pos h]
    · rw [if_neg (by omega), if_neg (by omega),
        Unit.mod_health_damage hposAT hA9 (by omega)]
  · rw [h2]
    rcases le_or_lt T.health (tableLookup damage_table T.type A.type) with h | h
    · rw [if_pos (by omega), if_pos h]
    · rw [if_neg (by omega), if_neg (by omega),
        Unit.mod_health_damage hposTA hT9 (by omega)]

/-- C1 (witness): the amended theorem applied to the concrete Virus-vs-AI
attack. -/
theorem claim_C1_witness :
    (gVirusAI.perform_move attackMove).1.get ⟨0, 1⟩ = none ∧
    (gVirusAI.perform_move attackMove).1.get ⟨0, 0⟩ =
      some ⟨Player.Defender, UnitType.AI, 6⟩ := by
  obtain ⟨h1, h2, -⟩ := claim_C1_amended gVirusAI attackMove
    ⟨Player.Attacker, UnitType.Virus, 9⟩ ⟨Player.Defender, UnitType.AI, 9⟩
    (by decide) (by decide) (by decide) (by decide) (by decide) (by decide)
  exact ⟨h1.trans (by decide), h2.trans (by decide)⟩

/-- C2 (counterexample): Attacker Virus (health 9) legally attacks the adjacent
Defender Tech (health 9); the code leaves the Virus at health 3, not 8: both
the Virus row entry against Tech and the Tech row entry against Virus are 6. -/
theorem claim_C2_counterexample :
    gVirusTech.is_valid_move attackMove = true ∧
    gVirusTech.determine_action attackMove = some ActionType.ATTACK ∧
    (gVirusTech.perform_move attackMove).1.get ⟨0, 1⟩ =
      some ⟨Player.Attacker, UnitType.Virus, 3⟩ ∧
    ¬ ((gVirusTech.perform_move attackMove).1.get ⟨0, 1⟩ =
      some ⟨Player.Attacker, UnitType.Virus, 8⟩) := by
  decide

/-- C2 (amended): in that attack the post state has the Tech at health 3 and
the Virus at health 3 (each loses 6). -/
theorem claim_C2_amended :
    gVirusTech.is_valid_move attackMove = true ∧
    gVirusTech.determine_action attackMove = some ActionType.ATTACK ∧
    (gVirusTech.perform_move attackMove).1.get ⟨0, 0⟩ =
      some ⟨Player.Defender, UnitType.Tech, 3⟩ ∧
    (gVirusTech.perform_move attackMove).1.get ⟨0, 1⟩ =
      some ⟨Player.Attacker, UnitType.Virus, 3⟩ := by
  decide

/-- C5: whenever a turn limit is configured and `turns_played` has reached it,
`has_winner` declares the Defender winner unconditionally — the check precedes
and overrides the AI-alive checks, whatever the flags and material say. -/
theorem claim_C5_turn_limit (g : Game) (m : Int)
    (hmt : g.options.max_turns = some m) (htp : m ≤ g.turns_played) :
    g.has_winner = some Player.Defender := by
  unfold Game.has_winner
  rw [hmt]
  dsimp only
  have hd : decide (g.turns_played ≥ m) = true := by
    simpa using htp
  rw [hd]
  rw [if_pos rfl]

/-- C5 (witness): at the turn limit with both AI units alive, the Defender is
declared winner. -/
theorem claim_C5_witness :
    gTurnLimit.has_winner = some Player.Defender ∧
    gTurnLimit.attacker_has_ai = true ∧ gTurnLimit.defender_has_ai = true :=
  ⟨claim_C5_turn_limit gTurnLimit 100 rfl (by decide), rfl, rfl⟩

/-- C6: with `max_time = None` (the embedded execution mode of `minimax`) and a
sentinel-bounded leaf evaluator, the root score of minimax with alpha-beta
pruning enabled equals the score with pruning disabled, for every state, depth
and root polarity — pruning changes only how much of the tree is explored. -/
theorem claim_C6_alpha_beta (H : HFun) (g : Game) (d : Nat) (maxi : Bool)
    (hH : ∀ g' mv ac pv,
      MIN_HEURISTIC_SCORE ≤ H g' mv ac pv ∧ H g' mv ac pv ≤ MAX_HEURISTIC_SCORE)
    (_hT : g.options.max_time = none) :
    (Game.minimax H true d maxi MIN_HEURISTIC_SCORE MAX_HEURISTIC_SCORE g none none none).1 =
    (Game.minimax H false d maxi MIN_HEURISTIC_SCORE MAX_HEURISTIC_SCORE g none none none).1 :=
  Game.minimax_alpha_beta_eq H hH d maxi g none none none

/-- C6 (witness): pruned and unpruned root scores agree on the concrete 1×1
state at depth 2 with the constant-zero evaluator. -/
theorem claim_C6_witness :
    (Game.minimax H0 true 2 true MIN_HEURISTIC_SCORE MAX_HEURISTIC_SCORE
      gSolo none none none).1 =
    (Game.minimax H0 false 2 true MIN_HEURISTIC_SCORE MAX_HEURISTIC_SCORE
      gSolo none none none).1 :=
  claim_C6_alpha_beta H0 gSolo 2 true
    (fun _ _ _ _ => by simp only [H0]; exact ⟨by decide, by decide⟩) rfl

/-- C7: any move returned by the search engine (`suggest_move`, for either
pruning mode and any leaf evaluator) satisfies the move-legality predicate
`is_valid_move` on the state the search was started from. -/
theorem claim_C7_suggest_valid (H : HFun) (ab : Bool) (g : Game) (m : CoordPair)
    (h : g.suggest_move H ab = some m) : g.is_valid_move m = true := by
  unfold Game.suggest_move at h
  by_cases hp : g.next_player = Player.Attacker
  · rw [if_pos hp] at h
    exact Game.mem_move_candidates_valid (Game.minimax_best_mem _ _ _ _ _ _ _ _ _ h)
  · rw [if_neg hp] at h
    exact Game.mem_move_candidates_valid (Game.minimax_best_mem _ _ _ _ _ _ _ _ _ h)

/-- C7 (witness): on the 1×1 state the search returns the self-target move,
and that move is valid. -/
theorem claim_C7_witness :
    gSolo.suggest_move H0 false = some ⟨⟨0, 0⟩, ⟨0, 0⟩⟩ ∧
    gSolo.is_valid_move ⟨⟨0, 0⟩, ⟨0, 0⟩⟩ = true :=
  ⟨by decide, claim_C7_suggest_valid H0 false gSolo _ (by decide)⟩

/-- C10: whenever the player to move owns a unit, `move_candidates` is
non-empty; every yielded move satisfies `is_valid_move`; and for every unit of
the mover the self-target pair is both valid and yielded unconditionally —
hence zero legal moves can only arise when the mover has no units. -/
theorem claim_C10_candidates (g : Game) :
    ((∃ c u, g.get c = some u ∧ u.player = g.next_player) → g.move_candidates ≠ []) ∧
    (∀ m ∈ g.move_candidates, g.is_valid_move m = true) ∧
    (∀ c u, g.get c = some u → u.player = g.next_player →
      g.is_valid_move ⟨c, c⟩ = true ∧ (⟨c, c⟩ : CoordPair) ∈ g.move_candidates) := by
  refine ⟨?_, fun m hm => Game.mem_move_candidates_valid hm,
    fun c u hc hp => ⟨Game.is_valid_move_self hc hp, Game.self_pair_mem_candidates hc hp⟩⟩
  rintro ⟨c, u, hc, hp⟩
  exact Game.move_candidates_ne_nil hc hp

/-- C10 (witness): the theorem applied to the 1×1 state with a single Attacker
unit. -/
theorem claim_C10_witness :
    gSolo.move_candidates ≠ [] ∧
    gSolo.is_valid_move ⟨⟨0, 0⟩, ⟨0, 0⟩⟩ = true ∧
    (⟨⟨0, 0⟩, ⟨0, 0⟩⟩ : CoordPair) ∈ gSolo.move_candidates := by
  obtain ⟨h1, -, h3⟩ := claim_C10_candidates gSolo
  obtain ⟨h4, h5⟩ := h3 ⟨0, 0⟩ ⟨Player.Attacker, UnitType.AI, 9⟩ (by decide) (by decide)
  exact ⟨h1 ⟨⟨0, 0⟩, ⟨Player.Attacker, UnitType.AI, 9⟩, by decide, by decide⟩, h4, h5⟩

/-- C3: engagement lock and direction of advance.  (1) a unit of type AI,
Firewall or Program belonging to the mover with an enemy in its four orthogonal
neighbours has no legal MOVE to any empty adjacent cell; (2) an ATTACK on that
adjacent enemy is legal; (3) with no adjacent enemy, a MOVE of those three
types to an empty adjacent in-bounds cell is legal exactly when it advances
(Attacker: decreasing row or column; Defender: increasing row or column);
(4) Tech and Virus units are never direction-restricted or adjacency-locked
when moving to an empty adjacent in-bounds cell. -/
theorem claim_C3_engagement (g : Game) :
    (∀ (src dst e : Coord) (u v : Unit),
      g.get src = some u → u.player = g.next_player →
      u.type ∈ [UnitType.AI, UnitType.Firewall, UnitType.Program] →
      e ∈ src.iter_adjacent → g.get e = some v → v.player ≠ u.player →
      dst ∈ src.iter_adjacent → g.get dst = none →
      g.is_valid_move ⟨src, dst⟩ = false) ∧
    (∀ (src e : Coord) (u v : Unit),
      g.get src = some u → u.player = g.next_player →
      e ∈ src.iter_adjacent → g.get e = some v → v.player ≠ u.player →
      g.is_valid_move ⟨src, e⟩ = true) ∧
    (∀ (src dst : Coord) (u : Unit),
      g.get src = some u → u.player = g.next_player →
      u.type ∈ [UnitType.AI, UnitType.Firewall, UnitType.Program] →
      (∀ e ∈ src.iter_adjacent, ∀ v, g.get e = some v → v.player = u.player) →
      dst ∈ src.iter_adjacent → g.is_valid_coord dst = true → g.get dst = none →
      (g.is_valid_move ⟨src, dst⟩ = true ↔
        (u.player = Player.Attacker → dst.row < src.row ∨ dst.col < src.col) ∧
        (u.player = Player.Defender → src.row < dst.row ∨ src.col < dst.col))) ∧
    (∀ (src dst : Coord) (u : Unit),
      g.get src = some u → u.player = g.next_player →
      (u.type = UnitType.Tech ∨ u.type = UnitType.Virus) →
      dst ∈ src.iter_adjacent → g.is_valid_coord dst = true → g.get dst = none →
      g.is_valid_move ⟨src, dst⟩ = true) := by
  refine ⟨?_, ?_, ?_, ?_⟩
  · intro src dst e u v hs hp ht he hev hvp hadj hdst
    by_cases hvd : g.is_valid_coord dst
    · rw [Game.is_valid_move_empty_adj hs hp hadj hvd hdst]
      exact Game.umr_locked hs ht he hev hvp
    · unfold Game.is_valid_move
      rw [if_pos (Or.inr (by simpa using hvd))]
  · intro src e u v hs hp he hev hvp
    exact Game.is_valid_move_attack hs hp he hev hvp
  · intro src dst u hs hp ht hnolock hadj hvd he
    rw [Game.is_valid_move_empty_adj hs hp hadj hvd he,
      Game.umr_unlocked_iff hs ht hnolock]
    rcases mem_iter_adjacent.mp hadj with h | h | h | h <;> subst h <;>
      cases hup : u.player <;> simp [hup]
  · intro src dst u hs hp ht hadj hvd he
    rw [Game.is_valid_move_empty_adj hs hp hadj hvd he]
    unfold Game.unit_movement_restriction
    rw [hs]
    dsimp only
    rw [if_neg (by rcases ht with h | h <;> simp [h])]

/-- C3 (witness): the theorem applied to concrete states — the locked Attacker
Program cannot move up but can attack the adjacent enemy; the lone Program may
move up (advance) but not down (retreat); the lone Virus may move down. -/
theorem claim_C3_witness :
    gLocked.is_valid_move ⟨⟨1, 1⟩, ⟨0, 1⟩⟩ = false ∧
    gLocked.is_valid_move ⟨⟨1, 1⟩, ⟨1, 0⟩⟩ = true ∧
    gLoneProgram.is_valid_move ⟨⟨1, 1⟩, ⟨0, 1⟩⟩ = true ∧
    gLoneProgram.is_valid_move ⟨⟨1, 1⟩, ⟨2, 1⟩⟩ = false ∧
    gLoneVirus.is_valid_move ⟨⟨1, 1⟩, ⟨2, 1⟩⟩ = true := by
  have hnolockP : ∀ e ∈ (⟨1, 1⟩ : Coord).iter_adjacent, ∀ v : Unit,
      gLoneProgram.get e = some v → v.player = Player.Attacker := by
    intro e he v hev
    rcases mem_iter_adjacent.mp he with h | h | h | h <;> subst h <;>
      · rw [show gLoneProgram.get _ = none from by decide] at hev
        exact Option.noConfusion hev
  refine ⟨?_, ?_, ?_, ?_, ?_⟩
  · exact (claim_C3_engagement gLocked).1 ⟨1, 1⟩ ⟨0, 1⟩ ⟨1, 0⟩
      ⟨Player.Attacker, UnitType.Program, 9⟩ ⟨Player.Defender, UnitType.Firewall, 9⟩
      (by decide) (by decide) (by decide) (by decide) (by decide) (by decide)
      (by decide) (by decide)
  · exact (claim_C3_engagement gLocked).2.1 ⟨1, 1⟩ ⟨1, 0⟩
      ⟨Player.Attacker, UnitType.Program, 9⟩ ⟨Player.Defender, UnitType.Firewall, 9⟩
      (by decide) (by decide) (by decide) (by decide) (by decide)
  · exact ((claim_C3_engagement gLoneProgram).2.2.1 ⟨1, 1⟩ ⟨0, 1⟩
      ⟨Player.Attacker, UnitType.Program, 9⟩
      (by decide) (by decide) (by decide) hnolockP (by decide) (by decide)
      (by decide)).mpr ⟨fun _ => by norm_num, fun hcon => nomatch hcon⟩
  · have hiff := (claim_C3_engagement gLoneProgram).2.2.1 ⟨1, 1⟩ ⟨2, 1⟩
      ⟨Player.Attacker, UnitType.Program, 9⟩
      (by decide) (by decide) (by decide) hnolockP (by decide) (by decide)
      (by decide)
    cases hb : gLoneProgram.is_valid_move ⟨⟨1, 1⟩, ⟨2, 1⟩⟩
    · rfl
    · obtain ⟨hA, -⟩ := hiff.mp hb
      exact absurd (hA rfl) (by norm_num)
  · exact (claim_C3_engagement gLoneVirus).2.2.2 ⟨1, 1⟩ ⟨2, 1⟩
      ⟨Player.Attacker, UnitType.Virus, 9⟩
      (by decide) (by decide) (Or.inr rfl) (by decide) (by decide) (by decide)

/-- C4: for every legal SUICIDE (self-target on a unit of the mover, health at
most 9), the acting unit is removed; every other unit in the 1-radius box
around it loses exactly 2 health (clamped at 0, dead units removed); every
cell outside the box is unchanged; and when no unit occupies the 8 surrounding
cells, the reported total splash damage is 0. -/
theorem claim_C4_suicide (g : Game) (coords : CoordPair) (u : Unit)
    (hsd : coords.src = coords.dst)
    (hs : g.get coords.src = some u) (hp : u.player = g.next_player)
    (h9 : u.health ≤ 9) :
    g.is_valid_move coords = true ∧
    (g.perform_suicide coords).1.get coords.src = none ∧
    (∀ c ∈ coords.src.iter_range 1, c ≠ coords.src →
      (g.perform_suicide coords).1.get c =
        (match g.get c with
         | some w => if w.health ≤ 2 then none else some (w.mod_health (-2))
         | none => none)) ∧
    (∀ c ∈ coords.src.iter_range 1, c ≠ coords.src → ∀ w, g.get c = some w →
      2 < w.health → w.health ≤ 9 →
      (g.perform_suicide coords).1.get c = some ⟨w.player, w.type, w.health - 2⟩) ∧
    (∀ c, c ∉ coords.src.iter_range 1 → (g.perform_suicide coords).1.get c = g.get c) ∧
    ((∀ c ∈ coords.src.iter_range 1, c ≠ coords.src → g.get c = none) →
      (g.perform_suicide coords).2 = 0) := by
  have hsrc_mem : coords.src ∈ coords.src.iter_range 1 := by
    rw [iter_range_one]
    simp
  have hps : g.perform_suicide coords =
      (coords.src.iter_range 1).foldl suicideStep (g.mod_health coords.src (-9), 0) := rfl
  obtain ⟨f1, f2, f3⟩ :=
    suicide_foldl (coords.src.iter_range 1) (g.mod_health coords.src (-9)) 0
      (iter_range_one_nodup _)
  have hg1src : (g.mod_health coords.src (-9)).get coords.src = none := by
    rw [Game.get_mod_health_self _ hs, if_pos (by omega)]
  have hg1ne : ∀ c, c ≠ coords.src →
      (g.mod_health coords.src (-9)).get c = g.get c :=
    fun c hc => Game.get_mod_health_ne _ hc
  have hcell : ∀ c ∈ coords.src.iter_range 1, c ≠ coords.src →
      (g.perform_suicide coords).1.get c =
        (match g.get c with
         | some w => if w.health ≤ 2 then none else some (w.mod_health (-2))
         | none => none) := by
    intro c hc hne
    rw [hps, f1 c hc, hg1ne c hne]
    cases g.get c <;> rfl
  refine ⟨?_, ?_, hcell, ?_, ?_, ?_⟩
  · obtain ⟨cs, cd⟩ := coords
    simp only at hsd hs
    subst hsd
    exact Game.is_valid_move_self hs hp
  · rw [hps, f1 coords.src hsrc_mem, hg1src]
    rfl
  · intro c hc hne w hw h2 hw9
    rw [hcell c hc hne, hw]
    dsimp only
    rw [if_neg (by omega)]
    unfold Unit.mod_health
    rw [if_neg (by omega), if_neg (by omega)]
    have : w.health + (-2) = w.health - 2 := by ring
    rw [this]
  · intro c hc
    have hne : c ≠ coords.src := fun h => hc (h ▸ hsrc_mem)
    rw [hps, f2 c hc, hg1ne c hne]
  · intro hempty
    rw [hps, f3]
    have hcount : (coords.src.iter_range 1).countP
        (fun c => ((g.mod_health coords.src (-9)).get c).isSome) = 0 := by
      rw [List.countP_eq_zero]
      intro c hc
      by_cases hne : c = coords.src
      · subst hne
        rw [hg1src]
        simp
      · rw [hg1ne c hne, hempty c hc hne]
        simp
    rw [hcount]
    simp

/-- C4 (witness): the theorem applied to the lone unit on the 1×1 board — its
cell is emptied, no cell outside the box changes, and the reported splash
total is 0. -/
theorem claim_C4_witness :
    (gSolo.perform_suicide ⟨⟨0, 0⟩, ⟨0, 0⟩⟩).1.get ⟨0, 0⟩ = none ∧
    (gSolo.perform_suicide ⟨⟨0, 0⟩, ⟨0, 0⟩⟩).2 = 0 ∧
    gSolo.is_valid_move ⟨⟨0, 0⟩, ⟨0, 0⟩⟩ = true := by
  obtain ⟨hvm, h1, -, -, -, h5⟩ := claim_C4_suicide gSolo ⟨⟨0, 0⟩, ⟨0, 0⟩⟩
    ⟨Player.Attacker, UnitType.AI, 9⟩ rfl (by decide) (by decide) (by decide)
  refine ⟨h1, h5 ?_, hvm⟩
  intro c hc hne
  rw [iter_range_one] at hc
  simp only [List.mem_cons, List.not_mem_nil, or_false] at hc
  rcases hc with rfl | rfl | rfl | rfl | rfl | rfl | rfl | rfl | rfl
  all_goals first
  | exact absurd rfl hne
  | decide

/-- C8 (counterexample): `determine_action` is not total — with an empty source
cell and an occupied destination the source's `.player` access raises in the
source (modelled as `none`). -/
theorem claim_C8_counterexample :
    gLocked.get ⟨0, 0⟩ = none ∧ (gLocked.get ⟨1, 0⟩).isSome = true ∧
    gLocked.determine_action ⟨⟨0, 0⟩, ⟨1, 0⟩⟩ = none := by
  decide

/-- C8 (amended): `determine_action` is pure, does not validate legality, and
classifies every coordinate pair — SUICIDE on self-target, MOVE on an empty
destination, REPAIR/ATTACK by owner comparison when both cells are occupied —
failing exactly when the source is empty while the destination is occupied
(and the pair is not a self-target). -/
theorem claim_C8_amended (g : Game) (coords : CoordPair) :
    (coords.src = coords.dst → g.determine_action coords = some ActionType.SUICIDE) ∧
    (coords.src ≠ coords.dst → g.get coords.dst = none →
      g.determine_action coords = some ActionType.MOVE) ∧
    (∀ su du, coords.src ≠ coords.dst → g.get coords.src = some su →
      g.get coords.dst = some du →
      g.determine_action coords =
        some (if su.player = du.player then ActionType.REPAIR else ActionType.ATTACK)) ∧
    (g.determine_action coords = none ↔
      coords.src ≠ coords.dst ∧ g.get coords.src = none ∧
        (g.get coords.dst).isSome = true) := by
  refine ⟨?_, ?_, ?_, ?_⟩
  · intro h
    unfold Game.determine_action
    rw [if_pos h]
  · intro hne hdst
    unfold Game.determine_action
    rw [if_neg hne, hdst]
  · intro su du hne hsrc hdst
    unfold Game.determine_action
    rw [if_neg hne, hdst]
    dsimp only
    rw [hsrc]
    dsimp only
    by_cases h : su.player = du.player
    · rw [if_pos h, if_pos h]
    · rw [if_neg h, if_neg h]
  · unfold Game.determine_action
    by_cases hne : coords.src = coords.dst
    · rw [if_pos hne]
      simp [hne]
    · rw [if_neg hne]
      cases hdst : g.get coords.dst with
      | none => simp [hdst]
      | some du =>
        cases hsrc : g.get coords.src with
        | none => simp [hne, hsrc, hdst]
        | some su =>
          dsimp only
          split <;> simp [hne, hsrc, hdst]

/-- C8 (witness): the amended classification applied to concrete pairs on the
`gLocked` board. -/
theorem claim_C8_witness :
    gLocked.determine_action ⟨⟨1, 1⟩, ⟨1, 1⟩⟩ = some ActionType.SUICIDE ∧
    gLocked.determine_action ⟨⟨1, 1⟩, ⟨0, 1⟩⟩ = some ActionType.MOVE ∧
    gLocked.determine_action ⟨⟨1, 1⟩, ⟨1, 0⟩⟩ = some ActionType.ATTACK ∧
    gLocked.determine_action ⟨⟨0, 0⟩, ⟨1, 0⟩⟩ = none := by
  refine ⟨(claim_C8_amended gLocked _).1 rfl,
    (claim_C8_amended gLocked _).2.1 (by decide) (by decide), ?_, ?_⟩
  · have h := (claim_C8_amended gLocked ⟨⟨1, 1⟩, ⟨1, 0⟩⟩).2.2.1
      ⟨Player.Attacker, UnitType.Program, 9⟩ ⟨Player.Defender, UnitType.Firewall, 9⟩
      (by decide) (by decide) (by decide)
    exact h.trans (by decide)
  · exact ((claim_C8_amended gLocked _).2.2.2).mpr ⟨by decide, by decide, by decide⟩

/-- C9 (counterexample): parsing "!5" — whose row character is outside A–Z —
does not fail: it yields the coordinate (−1, 5) (the −1 is Python `str.find`'s
not-found result), contradicting the claim that out-of-range characters yield
no coordinate. -/
theorem claim_C9_counterexample :
    Coord.from_string ['!', '5'] = some ⟨-1, 5⟩ ∧
    Coord.from_string ['!', '5'] ≠ none := by
  decide

/-- C9 (amended): coordinate text parsing fails (yields "no coordinate")
exactly when the cleaned input (whitespace stripped, separators removed) does
not have length 2; parsing is case-insensitive on both characters — each valid
row letter in lower case with the column digit in upper case parses to the same
coordinate as the canonical cases; out-of-range characters yield a coordinate
with −1 in that component rather than a parse failure. -/
theorem claim_C9_amended :
    (∀ s : List Char, Coord.from_string s = none ↔ (cleanCoordString s).length ≠ 2) ∧
    (∀ i : Fin 26, ∀ j : Fin 16,
      Coord.from_string ["abcdefghijklmnopqrstuvwxyz".toList.getD i ' ',
                         "0123456789ABCDEF".toList.getD j ' '] =
        some ⟨(i : Int), (j : Int)⟩ ∧
      Coord.from_string [rowAlphabet.getD i ' ', colAlphabet.getD j ' '] =
        some ⟨(i : Int), (j : Int)⟩) := by
  constructor
  · intro s
    unfold Coord.from_string
    dsimp only
    split
    · rename_i h
      simp [h]
    · rename_i h
      simp [h]
  · decide

/-- C9 (witness): the amended theorem applied to concrete strings — a 3-symbol
string fails to parse, and a lower-case row letter parses like the canonical
case. -/
theorem claim_C9_witness :
    Coord.from_string ['D', '2', '2'] = none ∧
    Coord.from_string ['d', '2'] = some ⟨3, 2⟩ := by
  constructor
  · exact (claim_C9_amended.1 ['D', '2', '2']).mpr (by decide)
  · exact (claim_C9_amended.2 ⟨3, by omega⟩ ⟨2, by omega⟩).1

end AIWargame
